import Mathlib

/-!
# lmdb_example.c: a shallow embedding

The program under `src/lmdb_tutorial/lmdb_example.c` is a sequence of small C
functions, each of which opens the LMDB environment, runs one transaction and
closes the environment again.  The functions are embedded as state-passing
Lean functions over an explicit library state `St`.

The LMDB library itself is not part of the repository.  Its entry points are
modelled on an abstract store (a list of key/value pairs kept in ascending key
order); every such definition says so in its doc comment.  Whether a library
call fails for a reason outside the store (I/O, memory, map full) is decided by
an explicit parameter `Lib`, so that every error path of the C functions is
present in the embedding.

Bytes are natural numbers; a C string is the list of its bytes without the
terminating NUL, so `strlen` is `List.length`.  The `int count` counters are
natural numbers: a store that fits the 1 GiB map holds far fewer than `2^31`
entries.
-/

/-! ## Data model -/

/-- Keys are byte strings (`MDB_val` with `mv_size`, `mv_data`). -/
abbrev Key := List Nat

/-- Values are byte strings. -/
abbrev Val := List Nat

/-- Abstract content of the unnamed database: key/value entries, in ascending key order. -/
abbrev Store := List (Key × Val)

/-- UTF-8 bytes of one code point. -/
def utf8Bytes (c : Nat) : List Nat :=
  if c < 128 then [c]
  else if c < 2048 then [192 + c / 64, 128 + c % 64]
  else if c < 65536 then [224 + c / 4096, 128 + c / 64 % 64, 128 + c % 64]
  else [240 + c / 262144, 128 + c / 4096 % 64, 128 + c / 64 % 64, 128 + c % 64]

/-- Bytes of a C string literal of the (UTF-8 encoded) source file. -/
def cstr (s : String) : List Nat :=
  (s.toList.map fun c => utf8Bytes c.toNat).flatten

/-- Return code `MDB_SUCCESS` of lmdb.h. -/
def MDB_SUCCESS : Int := 0

/-- Return code `MDB_NOTFOUND` of lmdb.h. -/
def MDB_NOTFOUND : Int := -30798

/-- Value of errno `EINVAL`. -/
def EINVAL : Int := 22

/-- Library entry points the program calls. -/
inductive Api where
  | env_create | env_set_mapsize | env_set_maxreaders | env_set_maxdbs
  | env_open | env_info | env_close
  | txn_begin | txn_commit | txn_abort
  | dbi_open | dbi_close
  | put | get | del | stat
  | cursor_open | cursor_get | cursor_del | cursor_close
  deriving DecidableEq, Repr

/-- Cursor operations used by the program. -/
inductive MDB_cursor_op where
  | MDB_NEXT | MDB_SET_RANGE
  deriving DecidableEq, Repr

/-- What the program prints, one constructor per message that carries data.
Separator lines and headings are left out. -/
inductive Line where
  | err (rc : Int)                              -- any message on stderr
  | wrote (k : Key) (v : Val)                   -- put_single_data: "写入成功"
  | batch_item (n : Nat) (k : Key) (v : Val)    -- put_batch_data: "  [n] k = v"
  | batch_done (n : Nat)                        -- put_batch_data: "批量写入完成"
  | read_ok (k : Key) (v : Val)                 -- get_data: "读取成功"
  | key_absent (k : Key)                        -- get_data, delete_data: "键不存在"
  | record (n : Nat) (k : Key) (v : Val)        -- iterate/query: "  [n] k = v"
  | iterated (n : Nat)                          -- iterate_all_data: "遍历完成，总共 n 条记录"
  | found (n : Nat)                             -- query_by_prefix: "找到 n 条匹配记录"
  | no_match (p : Key)                          -- query/delete by prefix: "没有找到匹配前缀"
  | deleted (k : Key)                           -- delete_data: "删除成功"
  | deleting (k : Key)                          -- delete_by_prefix: "  删除: k"
  | batch_deleted (n : Nat)                     -- delete_by_prefix: "批量删除完成，共删除 n 条记录"
  | entries (n : Nat)                           -- get_database_stats: "总记录数"
  | dir_created | dir_exists                    -- create_database_directory
  | finished                                    -- main: "示例程序执行完成!"
  deriving DecidableEq, Repr

/-- Behaviour of the environment during one function call: for each fallible
library call the error it is made to fail with (`0`: the call runs normally),
calls made in a loop being numbered from 0; the results of `stat` and `mkdir`;
and how `MDB_NEXT` behaves directly after `mdb_cursor_del`. -/
structure Lib where
  env_create : Int
  env_set_mapsize : Int
  env_set_maxreaders : Int
  env_set_maxdbs : Int
  env_open : Int
  env_info : Int
  txn_begin : Int
  txn_commit : Int
  dbi_open : Int
  put : Nat → Int
  get : Int
  del : Int
  stat : Int
  cursor_open : Int
  cursor_get : Nat → Int
  cursor_del : Nat → Int
  sys_stat : Int
  sys_mkdir : Int
  /-- With `true`, the cursor of LMDB, which the program is built against: `MDB_NEXT`
  issued right after `mdb_cursor_del` returns the entry the delete repositioned the
  cursor to (lmdb.h on `mdb_cursor_del`: "Both MDB_NEXT and MDB_GET_CURRENT will
  return the same record after this operation").  With `false`, a cursor whose
  `MDB_NEXT` always advances from the position it is on; it is kept only to show
  what the delete loop relies on. -/
  next_after_del_stays : Bool

/-- Cursor of a transaction: position in the transaction's view. -/
structure Cursor where
  init : Bool      -- positioned on an entry
  idx : Nat        -- index of that entry in the view
  del : Bool       -- the entry it was on has just been deleted through it
  deriving DecidableEq, Repr

/-- Library state during one function call. -/
structure St where
  db : Store                  -- committed store
  view : Store                -- what the active transaction sees
  cur : Cursor
  nput : Nat                  -- number of mdb_put calls so far
  ncget : Nat                 -- number of mdb_cursor_get calls so far
  ncdel : Nat                 -- number of mdb_cursor_del calls so far
  trace : List (Api × Int)    -- library calls so far, with their return codes
  out : List Line
  deriving DecidableEq, Repr

/-- State in which a function starts on the committed store `db`. -/
def St.start (db : Store) : St :=
  { db := db, view := [], cur := ⟨false, 0, false⟩, nput := 0, ncget := 0, ncdel := 0,
    trace := [], out := [] }

/-- Record a library call in the trace. -/
def St.call (s : St) (a : Api) (rc : Int) : St :=
  { s with trace := s.trace ++ [(a, rc)] }

/-- Record a printed message. -/
def St.print (s : St) (l : Line) : St :=
  { s with out := s.out ++ [l] }

/-! ## The store behind the library -/

/-- Modelled from the spec: the key order of the engine, "byte-lexicographic order"
(bytes compared as unsigned values, a proper prefix sorting first). -/
def keyLt : Key → Key → Bool
  | [], [] => false
  | [], _ :: _ => true
  | _ :: _, [] => false
  | a :: as, b :: bs => if a < b then true else if b < a then false else keyLt as bs

/-- Modelled from the spec: `insert(key, value)` of the B+tree engine, on the abstract
store: "inserts in sorted position"; an existing key has its value replaced. -/
def storePut : Store → Key → Val → Store
  | [], k, v => [(k, v)]
  | (k', v') :: rest, k, v =>
    if keyLt k k' then (k, v) :: (k', v') :: rest
    else if k = k' then (k, v) :: rest
    else (k', v') :: storePut rest k v

/-- Modelled from the spec: `lookup(key) -> Option<Value>` of the B+tree engine, on the
abstract store: "exact key match". -/
def storeGet : Store → Key → Option Val
  | [], _ => none
  | (k', v') :: rest, k => if k' = k then some v' else storeGet rest k

/-- Modelled from the spec: `delete(key)` of the B+tree engine, on the abstract store:
"removes the entry". -/
def storeDel (s : Store) (k : Key) : Store :=
  s.filter fun e => decide (e.1 ≠ k)

/-- Modelled from the spec: cursor `seek(key)` ("first key >= given key"): index of the
first entry whose key is not below `k`; the length of the store when there is none. -/
def seekIdx : Store → Key → Nat
  | [], _ => 0
  | (k', _) :: rest, k => if keyLt k' k then seekIdx rest k + 1 else 0

/-! ## The library entry points -/

/-- Modelled from the spec: `mdb_env_create`, first half of `open(path, config)`. -/
def mdb_env_create (L : Lib) (s : St) : Int × St :=
  (L.env_create, s.call .env_create L.env_create)

/-- Modelled from the spec: `mdb_env_set_mapsize`, the `max_size` of `open(path, config)`. -/
def mdb_env_set_mapsize (L : Lib) (s : St) : Int × St :=
  (L.env_set_mapsize, s.call .env_set_mapsize L.env_set_mapsize)

/-- Modelled from the spec: `mdb_env_set_maxreaders`, the `max_readers` of `open(path, config)`. -/
def mdb_env_set_maxreaders (L : Lib) (s : St) : Int × St :=
  (L.env_set_maxreaders, s.call .env_set_maxreaders L.env_set_maxreaders)

/-- Modelled from the spec: `mdb_env_set_maxdbs`, part of the configuration of `open`. -/
def mdb_env_set_maxdbs (L : Lib) (s : St) : Int × St :=
  (L.env_set_maxdbs, s.call .env_set_maxdbs L.env_set_maxdbs)

/-- Modelled from the spec: `mdb_env_open`, second half of `open(path, config)`. -/
def mdb_env_open (L : Lib) (s : St) : Int × St :=
  (L.env_open, s.call .env_open L.env_open)

/-- Modelled from the spec: `mdb_env_info`; only its return code matters here. -/
def mdb_env_info (L : Lib) (s : St) : Int × St :=
  (L.env_info, s.call .env_info L.env_info)

/-- Modelled from the spec: `mdb_env_close`, "torn down at environment close". -/
def mdb_env_close (s : St) : St := s.call .env_close 0

/-- Modelled from the spec: `mdb_txn_begin`, `begin_transaction(env, mode)`: "a transaction
begins by snapshotting the current committed meta page". -/
def mdb_txn_begin (L : Lib) (s : St) : Int × St :=
  if L.txn_begin ≠ 0 then (L.txn_begin, s.call .txn_begin L.txn_begin)
  else (MDB_SUCCESS, { s with view := s.db }.call .txn_begin MDB_SUCCESS)

/-- Modelled from the spec: `mdb_txn_commit`: "commit atomically republishes a new meta
page pointing at the new root"; "commit failures leave the database in its last
valid committed state". -/
def mdb_txn_commit (L : Lib) (s : St) : Int × St :=
  if L.txn_commit ≠ 0 then (L.txn_commit, s.call .txn_commit L.txn_commit)
  else (MDB_SUCCESS, { s with db := s.view }.call .txn_commit MDB_SUCCESS)

/-- Modelled from the spec: `mdb_txn_abort`: "abort discards staged pages". -/
def mdb_txn_abort (s : St) : St := s.call .txn_abort 0

/-- Modelled from the spec: `mdb_dbi_open` of the unnamed database. -/
def mdb_dbi_open (L : Lib) (s : St) : Int × St :=
  (L.dbi_open, s.call .dbi_open L.dbi_open)

/-- Modelled from the spec: `mdb_dbi_close`. -/
def mdb_dbi_close (s : St) : St := s.call .dbi_close 0

/-- Modelled from the spec: `mdb_put` with flags 0, `put(txn, key, value)`. -/
def mdb_put (L : Lib) (key : Key) (value : Val) (s : St) : Int × St :=
  let e := L.put s.nput
  let s := { s with nput := s.nput + 1 }
  if e ≠ 0 then (e, s.call .put e)
  else (MDB_SUCCESS, { s with view := storePut s.view key value }.call .put MDB_SUCCESS)

/-- Modelled from the spec: `mdb_get`, `get(txn, key)`; "NotFound (lookup miss)".  The
second component is the `MDB_val` written on success, left as it was otherwise. -/
def mdb_get (L : Lib) (key : Key) (value : Val) (s : St) : Int × Val × St :=
  if L.get ≠ 0 then (L.get, value, s.call .get L.get)
  else match storeGet s.view key with
    | some v => (MDB_SUCCESS, v, s.call .get MDB_SUCCESS)
    | none => (MDB_NOTFOUND, value, s.call .get MDB_NOTFOUND)

/-- Modelled from the spec: `mdb_del`, `delete(txn, key)`; `MDB_NOTFOUND` when the key
is absent. -/
def mdb_del (L : Lib) (key : Key) (s : St) : Int × St :=
  if L.del ≠ 0 then (L.del, s.call .del L.del)
  else match storeGet s.view key with
    | some _ => (MDB_SUCCESS, { s with view := storeDel s.view key }.call .del MDB_SUCCESS)
    | none => (MDB_NOTFOUND, s.call .del MDB_NOTFOUND)

/-- Modelled from the spec: `mdb_stat`, `stats(txn)`; the result is `ms_entries`. -/
def mdb_stat (L : Lib) (s : St) : Int × Nat × St :=
  if L.stat ≠ 0 then (L.stat, 0, s.call .stat L.stat)
  else (MDB_SUCCESS, s.view.length, s.call .stat MDB_SUCCESS)

/-- Modelled from the spec: `mdb_cursor_open`, `open_cursor(txn)`; the new cursor is
not positioned. -/
def mdb_cursor_open (L : Lib) (s : St) : Int × St :=
  if L.cursor_open ≠ 0 then (L.cursor_open, s.call .cursor_open L.cursor_open)
  else (MDB_SUCCESS, { s with cur := ⟨false, 0, false⟩ }.call .cursor_open MDB_SUCCESS)

/-- Modelled from the spec: `mdb_cursor_close`. -/
def mdb_cursor_close (s : St) : St := s.call .cursor_close 0

/-- Modelled from the spec: `mdb_cursor_get`.  `MDB_SET_RANGE` is `seek(key)` ("first key
>= given key"), answering `MDB_NOTFOUND` when there is no such key; `MDB_NEXT` is
`next()`, which beyond the last entry returns `MDB_NOTFOUND` ("an explicit exhausted
result") and on a cursor that is not positioned yet goes to the first entry (lmdb.h;
the specification is silent).  The key and value are written on success only.  What
`MDB_NEXT` does right after a cursor delete is the choice `Lib.next_after_del_stays`. -/
def mdb_cursor_get (L : Lib) (op : MDB_cursor_op) (key : Key) (value : Val) (s : St) :
    Int × Key × Val × St :=
  let e := L.cursor_get s.ncget
  let s := { s with ncget := s.ncget + 1 }
  if e ≠ 0 then (e, key, value, s.call .cursor_get e)
  else
    let i := match op with
      | .MDB_SET_RANGE => seekIdx s.view key
      | .MDB_NEXT =>
        if s.cur.init = false then 0
        else if s.cur.del = true ∧ L.next_after_del_stays = true then s.cur.idx
        else s.cur.idx + 1
    match s.view[i]? with
    | some (k, v) =>
      (MDB_SUCCESS, k, v, { s with cur := ⟨true, i, false⟩ }.call .cursor_get MDB_SUCCESS)
    | none => (MDB_NOTFOUND, key, value, s.call .cursor_get MDB_NOTFOUND)

/-- Modelled from the spec: `mdb_cursor_del` with flags 0, `delete_at_current()`:
"removes the entry the cursor currently points at and repositions to the next
surviving entry" (the index now designates the successor). -/
def mdb_cursor_del (L : Lib) (s : St) : Int × St :=
  let e := L.cursor_del s.ncdel
  let s := { s with ncdel := s.ncdel + 1 }
  if e ≠ 0 then (e, s.call .cursor_del e)
  else if s.cur.init = true ∧ s.cur.idx < s.view.length then
    (MDB_SUCCESS, { s with view := s.view.eraseIdx s.cur.idx,
                           cur := { s.cur with del := true } }.call .cursor_del MDB_SUCCESS)
  else (EINVAL, s.call .cursor_del EINVAL)

/-! ## The program -/

/-- Result of `memcmp(a, b, n)`: zero when the first `n` bytes agree, else the
difference of the first two bytes that differ.  Not meant for `n` beyond either
length (the callers test the length first). -/
def memcmp : List Nat → List Nat → Nat → Int
  | _, _, 0 => 0
  | a :: as, b :: bs, n + 1 => if a = b then memcmp as bs n else (a : Int) - (b : Int)
  | _, _, _ + 1 => 0

/-- Test of the two prefix loops:
`key.mv_size >= prefix_len && memcmp(key.mv_data, prefix, prefix_len) == 0`. -/
def keyHasPfx (pfx key : Key) : Bool :=
  decide (key.length ≥ pfx.length) && decide (memcmp key pfx pfx.length = 0)

/-- C macro `CHECK_ERROR` when `rc != MDB_SUCCESS`: message on stderr, `return rc`. -/
def checkFailed (rc : Int) (s : St) : Int × St := (rc, s.print (.err rc))

/-- C function `create_database_directory`; `stat` and `mkdir` answer as `L` says. -/
def create_database_directory (L : Lib) (s : St) : Int × St :=
  if L.sys_stat = -1 then
    if L.sys_mkdir = -1 then (-1, s.print (.err (-1)))
    else (0, s.print .dir_created)
  else (0, s.print .dir_exists)

/-- C function `create_and_open_database`. -/
def create_and_open_database (L : Lib) (s : St) : Int × St :=
  let (rc, s) := mdb_env_create L s
  if rc ≠ MDB_SUCCESS then checkFailed rc s else
  let (rc, s) := mdb_env_set_mapsize L s
  if rc ≠ MDB_SUCCESS then checkFailed rc s else
  let (rc, s) := mdb_env_set_maxreaders L s
  if rc ≠ MDB_SUCCESS then checkFailed rc s else
  let (rc, s) := mdb_env_set_maxdbs L s
  if rc ≠ MDB_SUCCESS then checkFailed rc s else
  let (rc, s) := mdb_env_open L s
  if rc ≠ MDB_SUCCESS then checkFailed rc s else
  let (rc, s) := mdb_txn_begin L s
  if rc ≠ MDB_SUCCESS then checkFailed rc s else
  let (rc, s) := mdb_dbi_open L s
  if rc ≠ MDB_SUCCESS then checkFailed rc s else
  let (rc, s) := mdb_txn_commit L s
  if rc ≠ MDB_SUCCESS then checkFailed rc s else
  let s := mdb_dbi_close s
  let s := mdb_env_close s
  (MDB_SUCCESS, s)

/-- C function `put_single_data`. -/
def put_single_data (L : Lib) (key : Key) (value : Val) (s : St) : Int × St :=
  let (rc, s) := mdb_env_create L s
  if rc ≠ MDB_SUCCESS then checkFailed rc s else
  let (rc, s) := mdb_env_open L s
  if rc ≠ MDB_SUCCESS then checkFailed rc s else
  let (rc, s) := mdb_txn_begin L s
  if rc ≠ MDB_SUCCESS then checkFailed rc s else
  let (rc, s) := mdb_dbi_open L s
  if rc ≠ MDB_SUCCESS then checkFailed rc s else
  let (rc, s) := mdb_put L key value s
  if rc ≠ MDB_SUCCESS then checkFailed rc s else
  let (rc, s) := mdb_txn_commit L s
  if rc ≠ MDB_SUCCESS then checkFailed rc s else
  let s := s.print (.wrote key value)
  let s := mdb_dbi_close s
  let s := mdb_env_close s
  (MDB_SUCCESS, s)

/-- Table `keys[]` of `put_batch_data`. -/
def keys : List Key :=
  [cstr "battery/001/step_001", cstr "battery/001/step_002", cstr "battery/001/step_003",
   cstr "battery/002/step_001", cstr "battery/002/step_002", cstr "battery/002/step_003",
   cstr "sensor/temp_001", cstr "sensor/temp_002", cstr "sensor/pressure_001",
   cstr "config/max_voltage", cstr "config/min_voltage", cstr "config/timeout",
   cstr "log/2024-01-01", cstr "log/2024-01-02", cstr "log/2024-01-03"]

/-- Table `values[]` of `put_batch_data`. -/
def values : List Val :=
  [cstr "CC_Charge_Step_1", cstr "CC_Discharge_Step_2", cstr "Rest_Step_3",
   cstr "CV_Charge_Step_1", cstr "CC_Discharge_Step_2", cstr "Rest_Step_3",
   cstr "Temperature: 25.5°C", cstr "Temperature: 26.2°C", cstr "Pressure: 1013.25 hPa",
   cstr "4.2V", cstr "2.8V", cstr "3600s",
   cstr "System started", cstr "Normal operation", cstr "System shutdown"]

/-- The `for` loop of `put_batch_data` over the pairs `keys[i]`, `values[i]` from index
`i` on.  A non-zero code is the `return rc` inside the loop, after the abort. -/
def put_batch_loop (L : Lib) : List (Key × Val) → Nat → St → Int × St
  | [], _, s => (MDB_SUCCESS, s)
  | (k, v) :: rest, i, s =>
    let (rc, s) := mdb_put L k v s
    if rc ≠ MDB_SUCCESS then
      let s := s.print (.err rc)
      let s := mdb_txn_abort s
      let s := mdb_dbi_close s
      let s := mdb_env_close s
      (rc, s)
    else
      let s := s.print (.batch_item (i + 1) k v)
      put_batch_loop L rest (i + 1) s

/-- C function `put_batch_data`. -/
def put_batch_data (L : Lib) (s : St) : Int × St :=
  let (rc, s) := mdb_env_create L s
  if rc ≠ MDB_SUCCESS then checkFailed rc s else
  let (rc, s) := mdb_env_open L s
  if rc ≠ MDB_SUCCESS then checkFailed rc s else
  let (rc, s) := mdb_txn_begin L s
  if rc ≠ MDB_SUCCESS then checkFailed rc s else
  let (rc, s) := mdb_dbi_open L s
  if rc ≠ MDB_SUCCESS then checkFailed rc s else
  let (rc, s) := put_batch_loop L (keys.zip values) 0 s
  if rc ≠ MDB_SUCCESS then (rc, s) else
  let (rc, s) := mdb_txn_commit L s
  if rc ≠ MDB_SUCCESS then checkFailed rc s else
  let s := s.print (.batch_done keys.length)
  let s := mdb_dbi_close s
  let s := mdb_env_close s
  (MDB_SUCCESS, s)

/-- C function `get_data`. -/
def get_data (L : Lib) (key : Key) (s : St) : Int × St :=
  let (rc, s) := mdb_env_create L s
  if rc ≠ MDB_SUCCESS then checkFailed rc s else
  let (rc, s) := mdb_env_open L s
  if rc ≠ MDB_SUCCESS then checkFailed rc s else
  let (rc, s) := mdb_txn_begin L s
  if rc ≠ MDB_SUCCESS then checkFailed rc s else
  let (rc, s) := mdb_dbi_open L s
  if rc ≠ MDB_SUCCESS then checkFailed rc s else
  let (rc, mdb_value, s) := mdb_get L key [] s
  let s :=
    if rc = MDB_SUCCESS then s.print (.read_ok key mdb_value)
    else if rc = MDB_NOTFOUND then s.print (.key_absent key)
    else s.print (.err rc)
  let s := mdb_txn_abort s
  let s := mdb_dbi_close s
  let s := mdb_env_close s
  (rc, s)

/-- C function `delete_data`. -/
def delete_data (L : Lib) (key : Key) (s : St) : Int × St :=
  let (rc, s) := mdb_env_create L s
  if rc ≠ MDB_SUCCESS then checkFailed rc s else
  let (rc, s) := mdb_env_open L s
  if rc ≠ MDB_SUCCESS then checkFailed rc s else
  let (rc, s) := mdb_txn_begin L s
  if rc ≠ MDB_SUCCESS then checkFailed rc s else
  let (rc, s) := mdb_dbi_open L s
  if rc ≠ MDB_SUCCESS then checkFailed rc s else
  let (rc, s) := mdb_del L key s
  if rc = MDB_SUCCESS then
    let s := s.print (.deleted key)
    let (rc, s) := mdb_txn_commit L s
    if rc ≠ MDB_SUCCESS then checkFailed rc s else
    let s := mdb_dbi_close s
    let s := mdb_env_close s
    (rc, s)
  else
    let s := if rc = MDB_NOTFOUND then s.print (.key_absent key) else s.print (.err rc)
    let s := mdb_txn_abort s
    let s := mdb_dbi_close s
    let s := mdb_env_close s
    (rc, s)

/-- The `while` loop of `iterate_all_data`, at most `fuel` calls of `MDB_NEXT`; the
result is the code that ended the loop, `count`, and the state.  `none`: out of fuel. -/
def iterate_loop (L : Lib) : Nat → Key → Val → Nat → St → Option (Int × Nat × St)
  | 0, _, _, _, _ => none
  | fuel + 1, key, value, count, s =>
    let (rc, key, value, s) := mdb_cursor_get L .MDB_NEXT key value s
    if rc = 0 then
      let count := count + 1
      let s := s.print (.record count key value)
      iterate_loop L fuel key value count s
    else some (rc, count, s)

/-- C function `iterate_all_data`; the loop gets one `MDB_NEXT` more than the
transaction sees entries. -/
def iterate_all_data (L : Lib) (s : St) : Option (Int × St) :=
  let (rc, s) := mdb_env_create L s
  if rc ≠ MDB_SUCCESS then some (checkFailed rc s) else
  let (rc, s) := mdb_env_open L s
  if rc ≠ MDB_SUCCESS then some (checkFailed rc s) else
  let (rc, s) := mdb_txn_begin L s
  if rc ≠ MDB_SUCCESS then some (checkFailed rc s) else
  let (rc, s) := mdb_dbi_open L s
  if rc ≠ MDB_SUCCESS then some (checkFailed rc s) else
  let (rc, s) := mdb_cursor_open L s
  if rc ≠ MDB_SUCCESS then some (checkFailed rc s) else
  match iterate_loop L (s.view.length + 1) [] [] 0 s with
  | none => none
  | some (rc, count, s) =>
    let s := if rc ≠ MDB_NOTFOUND then s.print (.err rc) else s.print (.iterated count)
    let s := mdb_cursor_close s
    let s := mdb_txn_abort s
    let s := mdb_dbi_close s
    let s := mdb_env_close s
    some (MDB_SUCCESS, s)

/-- The `do ... while` loop of `query_by_prefix`, entered with the cursor on
`key`/`value`; at most `fuel` passes.  The result is `count` and the state. -/
def query_loop (L : Lib) (pfx : Key) : Nat → Key → Val → Nat → St → Option (Nat × St)
  | 0, _, _, _, _ => none
  | fuel + 1, key, value, count, s =>
    if keyHasPfx pfx key then
      let count := count + 1
      let s := s.print (.record count key value)
      let (rc, key, value, s) := mdb_cursor_get L .MDB_NEXT key value s
      if rc = 0 then query_loop L pfx fuel key value count s
      else some (count, s)
    else some (count, s)

/-- C function `query_by_prefix`; the loop gets one pass more than the transaction
sees entries. -/
def query_by_prefix (L : Lib) (pfx : Key) (s : St) : Option (Int × St) :=
  let (rc, s) := mdb_env_create L s
  if rc ≠ MDB_SUCCESS then some (checkFailed rc s) else
  let (rc, s) := mdb_env_open L s
  if rc ≠ MDB_SUCCESS then some (checkFailed rc s) else
  let (rc, s) := mdb_txn_begin L s
  if rc ≠ MDB_SUCCESS then some (checkFailed rc s) else
  let (rc, s) := mdb_dbi_open L s
  if rc ≠ MDB_SUCCESS then some (checkFailed rc s) else
  let (rc, s) := mdb_cursor_open L s
  if rc ≠ MDB_SUCCESS then some (checkFailed rc s) else
  let (rc, key, value, s) := mdb_cursor_get L .MDB_SET_RANGE pfx [] s
  let r : Option St :=
    if rc = 0 then
      match query_loop L pfx (s.view.length + 1) key value 0 s with
      | none => none
      | some (count, s) => some (s.print (.found count))
    else if rc = MDB_NOTFOUND then some (s.print (.no_match pfx))
    else some (s.print (.err rc))
  match r with
  | none => none
  | some s =>
    let s := mdb_cursor_close s
    let s := mdb_txn_abort s
    let s := mdb_dbi_close s
    let s := mdb_env_close s
    some (MDB_SUCCESS, s)

/-- The `do ... while` loop of `delete_by_prefix`, entered with the cursor on
`key`/`value`; at most `fuel` passes.  The result is `count` and the state. -/
def delete_loop (L : Lib) (pfx : Key) : Nat → Key → Val → Nat → St → Option (Nat × St)
  | 0, _, _, _, _ => none
  | fuel + 1, key, value, count, s =>
    if keyHasPfx pfx key then
      let s := s.print (.deleting key)
      let (rc, s) := mdb_cursor_del L s
      if rc ≠ 0 then some (count, s.print (.err rc))
      else
        let count := count + 1
        let (rc, key, value, s) := mdb_cursor_get L .MDB_NEXT key value s
        if rc = 0 then delete_loop L pfx fuel key value count s
        else some (count, s)
    else some (count, s)

/-- C function `delete_by_prefix`; the loop gets one pass more than the transaction
sees entries. -/
def delete_by_prefix (L : Lib) (pfx : Key) (s : St) : Option (Int × St) :=
  let (rc, s) := mdb_env_create L s
  if rc ≠ MDB_SUCCESS then some (checkFailed rc s) else
  let (rc, s) := mdb_env_open L s
  if rc ≠ MDB_SUCCESS then some (checkFailed rc s) else
  let (rc, s) := mdb_txn_begin L s
  if rc ≠ MDB_SUCCESS then some (checkFailed rc s) else
  let (rc, s) := mdb_dbi_open L s
  if rc ≠ MDB_SUCCESS then some (checkFailed rc s) else
  let (rc, s) := mdb_cursor_open L s
  if rc ≠ MDB_SUCCESS then some (checkFailed rc s) else
  let (rc, key, value, s) := mdb_cursor_get L .MDB_SET_RANGE pfx [] s
  let r : Option (Nat × St) :=
    if rc = 0 then
      match delete_loop L pfx (s.view.length + 1) key value 0 s with
      | none => none
      | some (count, s) => some (count, s.print (.batch_deleted count))
    else if rc = MDB_NOTFOUND then some (0, s.print (.no_match pfx))
    else some (0, s.print (.err rc))
  match r with
  | none => none
  | some (count, s) =>
    let s := mdb_cursor_close s
    if count > 0 then
      let (rc, s) := mdb_txn_commit L s
      if rc ≠ MDB_SUCCESS then some (checkFailed rc s) else
      let s := mdb_dbi_close s
      let s := mdb_env_close s
      some (MDB_SUCCESS, s)
    else
      let s := mdb_txn_abort s
      let s := mdb_dbi_close s
      let s := mdb_env_close s
      some (MDB_SUCCESS, s)

/-- C function `get_database_stats`. -/
def get_database_stats (L : Lib) (s : St) : Int × St :=
  let (rc, s) := mdb_env_create L s
  if rc ≠ MDB_SUCCESS then checkFailed rc s else
  let (rc, s) := mdb_env_open L s
  if rc ≠ MDB_SUCCESS then checkFailed rc s else
  let (rc, s) := mdb_env_info L s
  if rc ≠ MDB_SUCCESS then checkFailed rc s else
  let (rc, s) := mdb_txn_begin L s
  if rc ≠ MDB_SUCCESS then checkFailed rc s else
  let (rc, s) := mdb_dbi_open L s
  if rc ≠ MDB_SUCCESS then checkFailed rc s else
  let (rc, ms_entries, s) := mdb_stat L s
  if rc ≠ MDB_SUCCESS then checkFailed rc s else
  let s := s.print (.entries ms_entries)
  let s := mdb_txn_abort s
  let s := mdb_dbi_close s
  let s := mdb_env_close s
  (MDB_SUCCESS, s)

/-- State in which the next function of `main` starts: the committed store and the
output so far are kept, the library state is fresh (a new environment is opened). -/
def St.next (s : St) : St := { St.start s.db with out := s.out }

/-- C function `main` (a Lean `main` is reserved for executables), started on the
committed store held by `s`. -/
def c_main (L : Lib) (s : St) : Option (Int × St) :=
  let (r, s) := create_database_directory L s
  if r ≠ 0 then some (1, s) else
  let (rc, s) := create_and_open_database L s.next
  if rc ≠ MDB_SUCCESS then some (1, s) else
  let (rc, s) := put_single_data L (cstr "test_key") (cstr "test_value") s.next
  if rc ≠ MDB_SUCCESS then some (1, s) else
  let (rc, s) := put_batch_data L s.next
  if rc ≠ MDB_SUCCESS then some (1, s) else
  let (_, s) := get_data L (cstr "test_key") s.next
  let (_, s) := get_data L (cstr "battery/001/step_001") s.next
  let (_, s) := get_data L (cstr "config/max_voltage") s.next
  let (_, s) := get_data L (cstr "nonexistent_key") s.next
  (iterate_all_data L s.next).bind fun (rc, s) =>
  if rc ≠ MDB_SUCCESS then some (1, s) else
  ( query_by_prefix L (cstr "battery") s.next).bind fun (_, s) =>
  ( query_by_prefix L (cstr "config") s.next).bind fun (_, s) =>
  ( query_by_prefix L (cstr "sensor") s.next).bind fun (_, s) =>
  ( query_by_prefix L (cstr "nonexistent") s.next).bind fun (_, s) =>
  let (rc, s) := get_database_stats L s.next
  if rc ≠ MDB_SUCCESS then some (1, s) else
  let (_, s) := delete_data L (cstr "test_key") s.next
  let (_, s) := delete_data L (cstr "nonexistent_key") s.next
  ( delete_by_prefix L (cstr "log") s.next).bind fun (_, s) =>
  let (rc, s) := get_database_stats L s.next
  if rc ≠ MDB_SUCCESS then some (1, s) else
  some (0, s.print .finished)

/-- Environment in which every library call succeeds and the database directory
exists; `stays` chooses what `MDB_NEXT` does right after a cursor delete. -/
def libOk (stays : Bool) : Lib :=
  { env_create := 0, env_set_mapsize := 0, env_set_maxreaders := 0, env_set_maxdbs := 0,
    env_open := 0, env_info := 0, txn_begin := 0, txn_commit := 0, dbi_open := 0,
    put := fun _ => 0, get := 0, del := 0, stat := 0, cursor_open := 0,
    cursor_get := fun _ => 0, cursor_del := fun _ => 0, sys_stat := 0, sys_mkdir := 0,
    next_after_del_stays := stays }

/-! ## Specification-side definitions -/

/-- A store is well formed when its keys are strictly ascending. -/
def StoreSorted (s : Store) : Prop :=
  s.Pairwise fun a b => keyLt a.1 b.1 = true

instance (s : Store) : Decidable (StoreSorted s) := by
  unfold StoreSorted; infer_instance

/-- One call of the write sequence of the round-trip property. -/
inductive Op where
  | put (k : Key) (v : Val)     -- put_single_data(k, v)
  | del (k : Key)               -- delete_data(k)
  deriving DecidableEq, Repr

/-- Committed store after one call of the program on the committed store `db`. -/
def runOp (L : Lib) (db : Store) : Op → Store
  | .put k v => (put_single_data L k v (St.start db)).2.db
  | .del k => (delete_data L k (St.start db)).2.db

/-- Committed store after a sequence of calls, first call first. -/
def runOps (L : Lib) (db : Store) (ops : List Op) : Store :=
  ops.foldl (runOp L) db

/-- Scan of a call sequence given latest call first: the value of the latest
`put` of `k` unless a `del` of `k` comes after it. -/
def latestWrite : List Op → Key → Option Val
  | [], _ => none
  | .put k' v :: older, k => if k' = k then some v else latestWrite older k
  | .del k' :: older, k => if k' = k then none else latestWrite older k

/-- What the round-trip property expects a read of `k` to find after `ops`. -/
def expectedValue (ops : List Op) (k : Key) : Option Val :=
  latestWrite ops.reverse k

/-- The `record` lines of an output, in order. -/
def records : List Line → List (Nat × Key × Val)
  | [] => []
  | .record n k v :: rest => (n, k, v) :: records rest
  | _ :: rest => records rest

/-- Entries numbered from `n + 1`, as the loops print them. -/
def numbered : Nat → List (Key × Val) → List (Nat × Key × Val)
  | _, [] => []
  | n, (k, v) :: rest => (n + 1, k, v) :: numbered (n + 1) rest

/-! ## Auxiliary definitions of the proofs -/

/-- Entry test "key below `p`". -/
def entryBelow (p : Key) (e : Key × Val) : Bool := keyLt e.1 p

/-- Entry test "key starts with `p`", the test of the prefix loops. -/
def entryHasPfx (p : Key) (e : Key × Val) : Bool := keyHasPfx p e.1

/-- Output lines of a run of numbered records. -/
def recordLines (n : Nat) (l : List (Key × Val)) : List Line :=
  (numbered n l).map fun r => Line.record r.1 r.2.1 r.2.2

/-- Index `MDB_NEXT` moves the cursor to. -/
def nextIdx (b : Bool) (c : Cursor) : Nat :=
  if c.init = false then 0 else if c.del = true ∧ b = true then c.idx else c.idx + 1

/-- What a run shows: return code, committed store afterwards, output. -/
def observe (r : Int × St) : Int × Store × List Line := (r.1, r.2.db, r.2.out)

/-- Output lines of the keys the delete loop announces. -/
def deletingLines (l : List (Key × Val)) : List Line :=
  l.map fun e => Line.deleting e.1

/-! ## Concrete stores and environments -/

/-- Committed store after `put_single_data(DB_PATH, "test_key", "test_value")` and
`put_batch_data(DB_PATH)` on the empty store, as in `main`. -/
def filledStore : Store :=
  (put_batch_data (libOk true)
    (St.start (put_single_data (libOk true) (cstr "test_key") (cstr "test_value")
      (St.start [])).2.db)).2.db

/-- Return code `MDB_MAP_FULL` of lmdb.h. -/
def MDB_MAP_FULL : Int := -30792

/-- Environment in which every `mdb_put` fails with `MDB_MAP_FULL` and every other
call succeeds. -/
def libPutFails : Lib := { libOk true with put := fun _ => MDB_MAP_FULL }

/-- Environment in which `mdb_del` fails with `MDB_MAP_FULL` and every other call
succeeds. -/
def libDelFails : Lib := { libOk true with del := MDB_MAP_FULL }

/-- Environment in which `mdb_cursor_open` fails with `EINVAL` and every other call
succeeds. -/
def libCursorOpenFails : Lib := { libOk true with cursor_open := EINVAL }

/-- Environment in which `mdb_stat` fails with `EINVAL` and every other call
succeeds. -/
def libStatFails : Lib := { libOk true with stat := EINVAL }

/-- Calls that end a transaction (a failed commit ends it too). -/
def endsTxn (e : Api × Int) : Bool :=
  decide (e.1 = Api.txn_commit) || decide (e.1 = Api.txn_abort)

/-- Calls issued on a transaction or on one of its cursors. -/
def usesTxn (e : Api × Int) : Bool :=
  decide (e.1 ∈ [Api.dbi_open, Api.put, Api.get, Api.del, Api.stat, Api.cursor_open,
    Api.cursor_get, Api.cursor_del, Api.cursor_close])

/-- The entry counts of the statistics reports of an output, in order. -/
def statsReports : List Line → List Nat
  | [] => []
  | .entries n :: rest => n :: statsReports rest
  | _ :: rest => statsReports rest

/-- Transaction discipline of one function call, read off its trace: if
`mdb_txn_begin` succeeded, a commit or abort follows, and after the first of them
comes no second one and no call on the transaction or its cursors. -/
def txnEndedOnce (t : List (Api × Int)) : Bool :=
  match t.dropWhile (fun e => !(decide (e.1 = Api.txn_begin) && decide (e.2 = 0))) with
  | [] => true
  | _ :: after =>
    match after.dropWhile (fun e => !endsTxn e) with
    | [] => false
    | _ :: rest => rest.all fun e => !endsTxn e && !usesTxn e

/-! ## Behaviour of `libOk` -/

@[simp] theorem libOk_env_create (b : Bool) : (libOk b).env_create = 0 := rfl
@[simp] theorem libOk_env_set_mapsize (b : Bool) : (libOk b).env_set_mapsize = 0 := rfl
@[simp] theorem libOk_env_set_maxreaders (b : Bool) : (libOk b).env_set_maxreaders = 0 := rfl
@[simp] theorem libOk_env_set_maxdbs (b : Bool) : (libOk b).env_set_maxdbs = 0 := rfl
@[simp] theorem libOk_env_open (b : Bool) : (libOk b).env_open = 0 := rfl
@[simp] theorem libOk_env_info (b : Bool) : (libOk b).env_info = 0 := rfl
@[simp] theorem libOk_txn_begin (b : Bool) : (libOk b).txn_begin = 0 := rfl
@[simp] theorem libOk_txn_commit (b : Bool) : (libOk b).txn_commit = 0 := rfl
@[simp] theorem libOk_dbi_open (b : Bool) : (libOk b).dbi_open = 0 := rfl
@[simp] theorem libOk_put (b : Bool) (n : Nat) : (libOk b).put n = 0 := rfl
@[simp] theorem libOk_get (b : Bool) : (libOk b).get = 0 := rfl
@[simp] theorem libOk_del (b : Bool) : (libOk b).del = 0 := rfl
@[simp] theorem libOk_stat (b : Bool) : (libOk b).stat = 0 := rfl
@[simp] theorem libOk_cursor_open (b : Bool) : (libOk b).cursor_open = 0 := rfl
@[simp] theorem libOk_cursor_get (b : Bool) (n : Nat) : (libOk b).cursor_get n = 0 := rfl
@[simp] theorem libOk_cursor_del (b : Bool) (n : Nat) : (libOk b).cursor_del n = 0 := rfl
@[simp] theorem libOk_sys_stat (b : Bool) : (libOk b).sys_stat = 0 := rfl
@[simp] theorem libOk_sys_mkdir (b : Bool) : (libOk b).sys_mkdir = 0 := rfl
@[simp] theorem libOk_next_after_del_stays (b : Bool) : (libOk b).next_after_del_stays = b := rfl

/-! ## Facts about the store -/

theorem storeGet_storePut (s : Store) (k : Key) (v : Val) (k' : Key) :
    storeGet (storePut s k v) k' = if k = k' then some v else storeGet s k' := by
  induction s with
  | nil => simp [storePut, storeGet]
  | cons e rest ih =>
    obtain ⟨k0, v0⟩ := e
    simp only [storePut]
    split
    · simp [storeGet]
    · split
      · rename_i h; subst h; simp only [storeGet]; by_cases h3 : k = k' <;> simp [h3]
      · rename_i h1 h2
        simp only [storeGet, ih]
        by_cases h3 : k0 = k'
        · subst h3; simp [h2]
        · simp [h3]

theorem storeGet_storeDel (s : Store) (k k' : Key) :
    storeGet (storeDel s k) k' = if k = k' then none else storeGet s k' := by
  induction s with
  | nil => simp [storeDel, storeGet]
  | cons e rest ih =>
    obtain ⟨k0, v0⟩ := e
    unfold storeDel at ih ⊢
    by_cases h : k0 = k
    · subst h
      simp only [List.filter, ne_eq, not_true_eq_false, decide_False, ih, storeGet]
      by_cases h3 : k0 = k' <;> simp [h3]
    · have : decide ((k0, v0).1 ≠ k) = true := by simpa using h
      simp only [List.filter, this, storeGet, ih]
      by_cases h3 : k0 = k'
      · subst h3; simp [Ne.symm h]
      · simp [h3]

theorem storeDel_absent (s : Store) (k : Key) (h : storeGet s k = none) : storeDel s k = s := by
  induction s with
  | nil => rfl
  | cons e rest ih =>
    obtain ⟨k0, v0⟩ := e
    simp only [storeGet] at h
    split at h
    · cases h
    · rename_i h1
      have : decide ((k0, v0).1 ≠ k) = true := by simpa using h1
      unfold storeDel at ih ⊢
      simp only [List.filter, this, ih h]

/-! ## The single-key functions when every library call succeeds -/

theorem put_single_data_ok (b : Bool) (k : Key) (v : Val) (db : Store) :
    put_single_data (libOk b) k v (St.start db) =
      (MDB_SUCCESS,
        { db := storePut db k v, view := storePut db k v, cur := ⟨false, 0, false⟩,
          nput := 1, ncget := 0, ncdel := 0,
          trace := [(.env_create, 0), (.env_open, 0), (.txn_begin, 0), (.dbi_open, 0),
                    (.put, 0), (.txn_commit, 0), (.dbi_close, 0), (.env_close, 0)],
          out := [.wrote k v] }) := by
  simp [put_single_data, libOk, St.start, mdb_env_create, mdb_env_open, mdb_txn_begin,
    mdb_dbi_open, mdb_put, mdb_txn_commit, mdb_dbi_close, mdb_env_close, St.call, St.print,
    MDB_SUCCESS]

theorem storeGet_eq_none_iff (s : Store) (k : Key) :
    storeGet s k = none ↔ k ∉ s.map Prod.fst := by
  induction s with
  | nil => simp [storeGet]
  | cons e rest ih =>
    obtain ⟨k0, v0⟩ := e
    simp only [storeGet, List.map_cons, List.mem_cons, not_or]
    by_cases h : k0 = k
    · subst h; simp
    · simp [h, ih, Ne.symm h]

theorem delete_data_run (L : Lib) (key : Key) (db : Store)
    (h1 : L.env_create = 0) (h2 : L.env_open = 0) (h3 : L.txn_begin = 0)
    (h4 : L.dbi_open = 0) (h5 : L.del = 0) (h6 : L.txn_commit = 0) :
    delete_data L key (St.start db) =
      match storeGet db key with
      | some _ =>
        (MDB_SUCCESS,
          { db := storeDel db key, view := storeDel db key, cur := ⟨false, 0, false⟩,
            nput := 0, ncget := 0, ncdel := 0,
            trace := [(.env_create, 0), (.env_open, 0), (.txn_begin, 0), (.dbi_open, 0),
                      (.del, 0), (.txn_commit, 0), (.dbi_close, 0), (.env_close, 0)],
            out := [.deleted key] })
      | none =>
        (MDB_NOTFOUND,
          { db := db, view := db, cur := ⟨false, 0, false⟩,
            nput := 0, ncget := 0, ncdel := 0,
            trace := [(.env_create, 0), (.env_open, 0), (.txn_begin, 0), (.dbi_open, 0),
                      (.del, MDB_NOTFOUND), (.txn_abort, 0), (.dbi_close, 0), (.env_close, 0)],
            out := [.key_absent key] }) := by
  cases h : storeGet db key <;>
  simp [delete_data, St.start, mdb_env_create, mdb_env_open, mdb_txn_begin,
    mdb_dbi_open, mdb_del, mdb_txn_commit, mdb_txn_abort, mdb_dbi_close, mdb_env_close,
    St.call, St.print, checkFailed, MDB_SUCCESS, MDB_NOTFOUND, h, h1, h2, h3, h4, h5, h6]

theorem get_data_run (L : Lib) (key : Key) (db : Store)
    (h1 : L.env_create = 0) (h2 : L.env_open = 0) (h3 : L.txn_begin = 0)
    (h4 : L.dbi_open = 0) (h5 : L.get = 0) :
    get_data L key (St.start db) =
      match storeGet db key with
      | some v =>
        (MDB_SUCCESS,
          { db := db, view := db, cur := ⟨false, 0, false⟩, nput := 0, ncget := 0, ncdel := 0,
            trace := [(.env_create, 0), (.env_open, 0), (.txn_begin, 0), (.dbi_open, 0),
                      (.get, 0), (.txn_abort, 0), (.dbi_close, 0), (.env_close, 0)],
            out := [.read_ok key v] })
      | none =>
        (MDB_NOTFOUND,
          { db := db, view := db, cur := ⟨false, 0, false⟩, nput := 0, ncget := 0, ncdel := 0,
            trace := [(.env_create, 0), (.env_open, 0), (.txn_begin, 0), (.dbi_open, 0),
                      (.get, MDB_NOTFOUND), (.txn_abort, 0), (.dbi_close, 0), (.env_close, 0)],
            out := [.key_absent key] }) := by
  cases h : storeGet db key <;>
  simp [get_data, St.start, mdb_env_create, mdb_env_open, mdb_txn_begin,
    mdb_dbi_open, mdb_get, mdb_txn_abort, mdb_dbi_close, mdb_env_close,
    St.call, St.print, checkFailed, MDB_SUCCESS, MDB_NOTFOUND, h, h1, h2, h3, h4, h5]

theorem runOp_libOk (b : Bool) (db : Store) (op : Op) :
    runOp (libOk b) db op =
      match op with
      | .put k v => storePut db k v
      | .del k => storeDel db k := by
  cases op with
  | put k v => simp [runOp, put_single_data_ok]
  | del k =>
    simp only [runOp]
    rw [delete_data_run (libOk b) k db rfl rfl rfl rfl rfl rfl]
    cases h : storeGet db k
    · simp [storeDel_absent db k h]
    · simp

theorem storeGet_runOps (b : Bool) (ops : List Op) (k : Key) :
    storeGet (runOps (libOk b) [] ops) k = expectedValue ops k := by
  induction ops using List.reverseRecOn with
  | nil => rfl
  | append_singleton ops op ih =>
    unfold expectedValue runOps at ih ⊢
    rw [List.foldl_append, List.reverse_append]
    simp only [List.foldl_cons, List.foldl_nil, List.reverse_cons, List.reverse_nil,
      List.nil_append, List.singleton_append]
    rw [runOp_libOk]
    cases op with
    | put k' v => simp only [latestWrite, storeGet_storePut, ih]
    | del k' => simp only [latestWrite, storeGet_storeDel, ih]

/-! ## The key order and the prefix test -/

theorem keyLt_irrefl (a : Key) : keyLt a a = false := by
  induction a with
  | nil => rfl
  | cons x xs ih => simp [keyLt, ih]

theorem keyLt_trans (a b c : Key) (h1 : keyLt a b = true) (h2 : keyLt b c = true) :
    keyLt a c = true := by
  induction a generalizing b c with
  | nil =>
    cases b with
    | nil => simp [keyLt] at h1
    | cons y ys =>
      cases c with
      | nil => simp [keyLt] at h2
      | cons z zs => simp [keyLt]
  | cons x xs ih =>
    cases b with
    | nil => simp [keyLt] at h1
    | cons y ys =>
      cases c with
      | nil => simp [keyLt] at h2
      | cons z zs =>
        simp only [keyLt] at h1 h2 ⊢
        by_cases hxy : x < y
        · by_cases hyz : y < z
          · have : x < z := by omega
            simp [this]
          · by_cases hzy : z < y
            · simp [hyz, hzy] at h2
            · have : x < z := by omega
              simp [this]
        · by_cases hyx : y < x
          · simp [hxy, hyx] at h1
          · simp only [hxy, hyx, if_false] at h1
            have hxy' : x = y := by omega
            subst hxy'
            by_cases hxz : x < z
            · simp [hxz]
            · by_cases hzx : z < x
              · simp [hxz, hzx] at h2
              · simp only [hxz, hzx, if_false] at h2 ⊢
                exact ih ys zs h1 h2

theorem keyLt_total (a b : Key) (h1 : keyLt a b = false) (h2 : keyLt b a = false) : a = b := by
  induction a generalizing b with
  | nil =>
    cases b with
    | nil => rfl
    | cons y ys => simp [keyLt] at h1
  | cons x xs ih =>
    cases b with
    | nil => simp [keyLt] at h2
    | cons y ys =>
      simp only [keyLt] at h1 h2
      by_cases hxy : x < y
      · simp [hxy] at h1
      · by_cases hyx : y < x
        · simp [hyx] at h2
        · simp only [hxy, hyx, if_false] at h1 h2
          have hxy' : x = y := by omega
          subst hxy'
          rw [ih ys h1 h2]

theorem keyLt_asymm (a b : Key) (h : keyLt a b = true) : keyLt b a = false := by
  cases h' : keyLt b a
  · rfl
  · have := keyLt_trans a b a h h'
    rw [keyLt_irrefl] at this
    cases this

theorem keyHasPfx_iff (p k : Key) : keyHasPfx p k = true ↔ p <+: k := by
  induction p generalizing k with
  | nil => simp [keyHasPfx, memcmp]
  | cons x xs ih =>
    cases k with
    | nil => simp [keyHasPfx]
    | cons y ys =>
      have ih' := ih ys
      simp only [keyHasPfx, Bool.and_eq_true, decide_eq_true_eq, List.length_cons, memcmp,
        ge_iff_le, Nat.add_le_add_iff_right] at ih' ⊢
      rw [List.cons_prefix_cons]
      by_cases hxy : y = x
      · subst hxy
        simp only [if_true, true_and]
        exact ih'
      · have hne : ¬ ((y : Int) - (x : Int) = 0) := by omega
        simp [hxy, hne, Ne.symm hxy]

/-- A key below the prefix does not start with it. -/
theorem not_hasPfx_of_lt (p k : Key) (h : keyLt k p = true) : keyHasPfx p k = false := by
  cases hk : keyHasPfx p k
  · rfl
  · rw [keyHasPfx_iff] at hk
    obtain ⟨t, rfl⟩ := hk
    exfalso
    induction p with
    | nil => cases t <;> simp [keyLt] at h
    | cons x xs ih =>
      simp only [List.cons_append, keyLt, Nat.lt_irrefl, if_false] at h
      exact ih h

/-- Keys that start with `p` are contiguous in the key order: once a key that is not
below `p` fails the test, every later key fails it. -/
theorem not_hasPfx_of_gt (p a b : Key) (hab : keyLt a b = true) (hap : keyLt a p = false)
    (ha : keyHasPfx p a = false) : keyHasPfx p b = false := by
  cases hb : keyHasPfx p b
  · rfl
  · exfalso
    rw [keyHasPfx_iff] at hb
    have ha' : ¬ p <+: a := by rw [← keyHasPfx_iff, ha]; simp
    clear ha
    induction p generalizing a b with
    | nil => exact ha' (List.nil_prefix)
    | cons x xs ih =>
      cases a with
      | nil => simp [keyLt] at hap
      | cons y ys =>
        cases b with
        | nil => simp [keyLt] at hab
        | cons z zs =>
          rw [List.cons_prefix_cons] at hb ha'
          obtain ⟨hxz, hzs⟩ := hb
          subst hxz
          simp only [keyLt] at hab hap
          by_cases hyx : y < x
          · simp [hyx] at hap
          · by_cases hxy : x < y
            · have h1 : ¬ y < x := hyx
              simp [h1, hxy] at hab
            · have hxy' : x = y := by omega
              subst hxy'
              simp only [Nat.lt_irrefl, if_false] at hab hap
              exact ih ys zs hab hap hzs (fun h => ha' ⟨rfl, h⟩)

/-! ## Sortedness is an invariant of the store -/

theorem mem_storePut (s : Store) (k : Key) (v : Val) (e : Key × Val)
    (h : e ∈ storePut s k v) : e = (k, v) ∨ e ∈ s := by
  induction s with
  | nil => simpa [storePut] using h
  | cons a rest ih =>
    obtain ⟨k0, v0⟩ := a
    simp only [storePut] at h
    split at h
    · simpa using h
    · split at h
      · rcases List.mem_cons.mp h with h | h
        · exact Or.inl h
        · exact Or.inr (List.mem_cons_of_mem _ h)
      · rcases List.mem_cons.mp h with h | h
        · exact Or.inr (by simp [h])
        · rcases ih h with h | h
          · exact Or.inl h
          · exact Or.inr (List.mem_cons_of_mem _ h)

theorem storePut_sorted (s : Store) (k : Key) (v : Val) (hs : StoreSorted s) :
    StoreSorted (storePut s k v) := by
  induction s with
  | nil => simp [storePut, StoreSorted]
  | cons a rest ih =>
    obtain ⟨k0, v0⟩ := a
    have hhead := (List.pairwise_cons.mp hs).1
    have hrest : StoreSorted rest := (List.pairwise_cons.mp hs).2
    simp only [storePut]
    split
    · rename_i hlt
      refine List.pairwise_cons.mpr ⟨?_, hs⟩
      intro e he
      rcases List.mem_cons.mp he with rfl | he
      · exact hlt
      · exact keyLt_trans _ _ _ hlt (hhead e he)
    · split
      · rename_i heq
        subst heq
        exact List.pairwise_cons.mpr ⟨hhead, hrest⟩
      · rename_i hnlt hne
        have hgt : keyLt k0 k = true := by
          cases hc : keyLt k0 k
          · exact absurd (keyLt_total k k0 (by simpa using hnlt) hc) hne
          · rfl
        refine List.pairwise_cons.mpr ⟨?_, ih hrest⟩
        intro e he
        rcases mem_storePut rest k v e he with rfl | he
        · exact hgt
        · exact hhead e he

theorem storeDel_sorted (s : Store) (k : Key) (hs : StoreSorted s) :
    StoreSorted (storeDel s k) :=
  List.Pairwise.sublist (List.filter_sublist s) hs

/-- Every store the write functions build from the empty store is sorted. -/
theorem runOps_sorted (b : Bool) (ops : List Op) : StoreSorted (runOps (libOk b) [] ops) := by
  induction ops using List.reverseRecOn with
  | nil => simp [runOps, StoreSorted]
  | append_singleton ops op ih =>
    unfold runOps at ih ⊢
    rw [List.foldl_append]
    simp only [List.foldl_cons, List.foldl_nil]
    rw [runOp_libOk]
    cases op with
    | put k v => exact storePut_sorted _ k v ih
    | del k => exact storeDel_sorted _ k ih

/-! ## What the expected value of a read is -/

theorem latestWrite_untouched (l : List Op) (k : Key)
    (h : ∀ o ∈ l, o ≠ Op.del k ∧ ∀ v, o ≠ Op.put k v) : latestWrite l k = none := by
  induction l with
  | nil => rfl
  | cons o l ih =>
    have ho := h o (List.mem_cons_self _ _)
    have hl := ih fun x hx => h x (List.mem_cons_of_mem _ hx)
    cases o with
    | put k' v =>
      have : k' ≠ k := fun e => ho.2 v (by rw [e])
      simp [latestWrite, this, hl]
    | del k' =>
      have : k' ≠ k := fun e => ho.1 (by rw [e])
      simp [latestWrite, this, hl]

theorem latestWrite_skip (l rest : List Op) (k : Key)
    (h : ∀ o ∈ l, o ≠ Op.del k ∧ ∀ v, o ≠ Op.put k v) :
    latestWrite (l ++ rest) k = latestWrite rest k := by
  induction l with
  | nil => rfl
  | cons o l ih =>
    have ho := h o (List.mem_cons_self _ _)
    have hl := ih fun x hx => h x (List.mem_cons_of_mem _ hx)
    cases o with
    | put k' v =>
      have : k' ≠ k := fun e => ho.2 v (by rw [e])
      simp [latestWrite, this, hl]
    | del k' =>
      have : k' ≠ k := fun e => ho.1 (by rw [e])
      simp [latestWrite, this, hl]

/-- The expected value is the value of a put of `k` that no later call on `k`
follows. -/
theorem expectedValue_last_put (pre post : List Op) (k : Key) (v : Val)
    (h : ∀ o ∈ post, o ≠ Op.del k ∧ ∀ v', o ≠ Op.put k v') :
    expectedValue (pre ++ Op.put k v :: post) k = some v := by
  unfold expectedValue
  rw [List.reverse_append, List.reverse_cons, List.append_assoc,
    latestWrite_skip _ _ k (fun o ho => h o (List.mem_reverse.mp ho))]
  simp [latestWrite]

/-- There is no expected value after a delete of `k` that no later call on `k`
follows. -/
theorem expectedValue_last_del (pre post : List Op) (k : Key)
    (h : ∀ o ∈ post, o ≠ Op.del k ∧ ∀ v', o ≠ Op.put k v') :
    expectedValue (pre ++ Op.del k :: post) k = none := by
  unfold expectedValue
  rw [List.reverse_append, List.reverse_cons, List.append_assoc,
    latestWrite_skip _ _ k (fun o ho => h o (List.mem_reverse.mp ho))]
  simp [latestWrite]

/-- There is no expected value for a key that was never put nor deleted. -/
theorem expectedValue_never_written (ops : List Op) (k : Key)
    (h : ∀ o ∈ ops, o ≠ Op.del k ∧ ∀ v, o ≠ Op.put k v) : expectedValue ops k = none :=
  latestWrite_untouched _ k fun o ho => h o (List.mem_reverse.mp ho)

/-! ## Sorted stores and the range a prefix covers -/

theorem seekIdx_eq (s : Store) (p : Key) :
    seekIdx s p = (s.takeWhile (entryBelow p)).length := by
  induction s with
  | nil => rfl
  | cons e rest ih =>
    obtain ⟨k, v⟩ := e
    by_cases h : keyLt k p = true
    · simp [seekIdx, List.takeWhile, entryBelow, h, ih]
    · simp [seekIdx, List.takeWhile, entryBelow, h]

theorem sorted_dropWhile_ge (s : Store) (p : Key) (hs : StoreSorted s) :
    ∀ e ∈ s.dropWhile (entryBelow p), keyLt e.1 p = false := by
  induction s with
  | nil => simp
  | cons e rest ih =>
    have hs' : StoreSorted rest := (List.pairwise_cons.mp hs).2
    by_cases h : entryBelow p e = true
    · simpa [List.dropWhile, h] using ih hs'
    · have hge : keyLt e.1 p = false := by simpa [entryBelow] using h
      simp only [List.dropWhile, h]
      intro x hx
      rcases List.mem_cons.mp hx with rfl | hx
      · exact hge
      · have hlt : keyLt e.1 x.1 = true := (List.pairwise_cons.mp hs).1 x hx
        cases hxp : keyLt x.1 p
        · rfl
        · rw [keyLt_trans _ _ _ hlt hxp] at hge
          cases hge

theorem sorted_no_pfx_after (B : Store) (p : Key) (hB : StoreSorted B)
    (hge : ∀ e ∈ B, keyLt e.1 p = false) :
    ∀ e ∈ B.dropWhile (entryHasPfx p), entryHasPfx p e = false := by
  induction B with
  | nil => simp
  | cons e rest ih =>
    have hB' : StoreSorted rest := (List.pairwise_cons.mp hB).2
    have hge' : ∀ x ∈ rest, keyLt x.1 p = false := fun x hx => hge x (List.mem_cons_of_mem _ hx)
    by_cases h : entryHasPfx p e = true
    · simpa [List.dropWhile, h] using ih hB' hge'
    · have hf : keyHasPfx p e.1 = false := by simpa [entryHasPfx] using h
      simp only [List.dropWhile, h]
      intro x hx
      rcases List.mem_cons.mp hx with rfl | hx
      · exact hf
      · have hlt : keyLt e.1 x.1 = true := (List.pairwise_cons.mp hB).1 x hx
        exact not_hasPfx_of_gt p e.1 x.1 hlt (hge e (List.mem_cons_self _ _)) hf

theorem sorted_dropWhile (s : Store) (f : Key × Val → Bool) (hs : StoreSorted s) :
    StoreSorted (s.dropWhile f) :=
  List.Pairwise.sublist (List.dropWhile_sublist f) hs

theorem filter_pfx_sorted (s : Store) (p : Key) (hs : StoreSorted s) :
    s.filter (entryHasPfx p) = (s.dropWhile (entryBelow p)).takeWhile (entryHasPfx p) := by
  have hA : (s.takeWhile (entryBelow p)).filter (entryHasPfx p) = [] := by
    rw [List.filter_eq_nil_iff]
    intro e he
    have := List.mem_takeWhile_imp he
    simp only [entryBelow] at this
    simp [entryHasPfx, not_hasPfx_of_lt p e.1 this]
  have hZ : ((s.dropWhile (entryBelow p)).dropWhile (entryHasPfx p)).filter (entryHasPfx p) = [] := by
    rw [List.filter_eq_nil_iff]
    intro e he
    simp [sorted_no_pfx_after _ p (sorted_dropWhile s _ hs) (sorted_dropWhile_ge s p hs) e he]
  have hM : ((s.dropWhile (entryBelow p)).takeWhile (entryHasPfx p)).filter (entryHasPfx p)
      = (s.dropWhile (entryBelow p)).takeWhile (entryHasPfx p) := by
    rw [List.filter_eq_self]
    intro e he
    exact List.mem_takeWhile_imp he
  conv_lhs => rw [← List.takeWhile_append_dropWhile (entryBelow p) s,
    ← List.takeWhile_append_dropWhile (entryHasPfx p) (s.dropWhile (entryBelow p))]
  rw [List.filter_append, List.filter_append, hA, hZ, hM]
  simp

theorem filter_not_pfx_sorted (s : Store) (p : Key) (hs : StoreSorted s) :
    s.filter (fun e => !entryHasPfx p e) =
      s.takeWhile (entryBelow p) ++ (s.dropWhile (entryBelow p)).dropWhile (entryHasPfx p) := by
  have hA : (s.takeWhile (entryBelow p)).filter (fun e => !entryHasPfx p e)
      = s.takeWhile (entryBelow p) := by
    rw [List.filter_eq_self]
    intro e he
    have := List.mem_takeWhile_imp he
    simp only [entryBelow] at this
    simp [entryHasPfx, not_hasPfx_of_lt p e.1 this]
  have hZ : ((s.dropWhile (entryBelow p)).dropWhile (entryHasPfx p)).filter
      (fun e => !entryHasPfx p e) = (s.dropWhile (entryBelow p)).dropWhile (entryHasPfx p) := by
    rw [List.filter_eq_self]
    intro e he
    simp [sorted_no_pfx_after _ p (sorted_dropWhile s _ hs) (sorted_dropWhile_ge s p hs) e he]
  have hM : ((s.dropWhile (entryBelow p)).takeWhile (entryHasPfx p)).filter
      (fun e => !entryHasPfx p e) = [] := by
    rw [List.filter_eq_nil_iff]
    intro e he
    simp [List.mem_takeWhile_imp he]
  conv_lhs => rw [← List.takeWhile_append_dropWhile (entryBelow p) s,
    ← List.takeWhile_append_dropWhile (entryHasPfx p) (s.dropWhile (entryBelow p))]
  rw [List.filter_append, List.filter_append, hA, hZ, hM]
  simp

/-! ## The cursor loops when every library call succeeds -/

theorem recordLines_cons (n : Nat) (k : Key) (v : Val) (l : List (Key × Val)) :
    recordLines n ((k, v) :: l) = Line.record (n + 1) k v :: recordLines (n + 1) l := rfl

theorem get?_append_succ (A R : Store) (e : Key × Val) :
    (A ++ e :: R)[A.length + 1]? = R.head? := by
  induction A with
  | nil => cases R <;> simp
  | cons a A ih => simpa using ih

theorem get?_append_self (A R : Store) : (A ++ R)[A.length]? = R.head? := by
  induction A with
  | nil => cases R <;> simp
  | cons a A ih => simpa using ih

theorem cursor_get_next_some (b : Bool) (key : Key) (value : Val) (s : St) (k : Key) (v : Val)
    (hg : s.view[nextIdx b s.cur]? = some (k, v)) :
    mdb_cursor_get (libOk b) .MDB_NEXT key value s =
      (MDB_SUCCESS, k, v,
        { s with ncget := s.ncget + 1, cur := ⟨true, nextIdx b s.cur, false⟩,
                 trace := s.trace ++ [(.cursor_get, MDB_SUCCESS)] }) := by
  unfold nextIdx at hg
  simp only [mdb_cursor_get, libOk_cursor_get, libOk_next_after_del_stays, ne_eq,
    not_true_eq_false, if_false, hg, St.call, nextIdx]

theorem cursor_get_next_none (b : Bool) (key : Key) (value : Val) (s : St)
    (hg : s.view[nextIdx b s.cur]? = none) :
    mdb_cursor_get (libOk b) .MDB_NEXT key value s =
      (MDB_NOTFOUND, key, value,
        { s with ncget := s.ncget + 1, trace := s.trace ++ [(.cursor_get, MDB_NOTFOUND)] }) := by
  unfold nextIdx at hg
  simp only [mdb_cursor_get, libOk_cursor_get, libOk_next_after_del_stays, ne_eq,
    not_true_eq_false, if_false, hg, St.call]

theorem query_loop_run (b : Bool) (p : Key) (R : Store) :
    ∀ (A : Store) (key : Key) (value : Val) (count fuel : Nat) (s : St),
      s.view = A ++ (key, value) :: R → s.cur = ⟨true, A.length, false⟩ → R.length < fuel →
      ∃ s', query_loop (libOk b) p fuel key value count s =
          some (count + (((key, value) :: R).takeWhile (entryHasPfx p)).length, s') ∧
        s'.out = s.out ++ recordLines count (((key, value) :: R).takeWhile (entryHasPfx p)) ∧
        s'.db = s.db ∧ s'.view = s.view := by
  induction R with
  | nil =>
    intro A key value count fuel s hv hc hf
    obtain ⟨fuel, rfl⟩ : ∃ f, fuel = f + 1 := ⟨fuel - 1, by omega⟩
    by_cases hp : keyHasPfx p key = true
    · have hget : (s.print (.record (count + 1) key value)).view[
          nextIdx b (s.print (.record (count + 1) key value)).cur]? = none := by
        simp only [St.print, hc, nextIdx, hv]
        simp
      refine ⟨{ (s.print (.record (count + 1) key value)) with
          ncget := s.ncget + 1,
          trace := s.trace ++ [(.cursor_get, MDB_NOTFOUND)] }, ?_, ?_, rfl, rfl⟩
      · simp only [query_loop, hp, if_true]
        rw [cursor_get_next_none b key value _ hget]
        simp [List.takeWhile, entryHasPfx, hp, MDB_NOTFOUND, St.print]
      · simp [List.takeWhile, entryHasPfx, hp, St.print, recordLines, numbered]
    · refine ⟨s, ?_, ?_, rfl, rfl⟩
      · simp [query_loop, hp, List.takeWhile, entryHasPfx]
      · simp [List.takeWhile, entryHasPfx, hp, recordLines, numbered]
  | cons e R ih =>
    intro A key value count fuel s hv hc hf
    obtain ⟨k', v'⟩ := e
    obtain ⟨fuel, rfl⟩ : ∃ f, fuel = f + 1 := ⟨fuel - 1, by omega⟩
    by_cases hp : keyHasPfx p key = true
    · have hidx : nextIdx b (s.print (.record (count + 1) key value)).cur = A.length + 1 := by
        simp [St.print, hc, nextIdx]
      have hget : (s.print (.record (count + 1) key value)).view[
          nextIdx b (s.print (.record (count + 1) key value)).cur]? = some (k', v') := by
        rw [hidx]
        simp only [St.print, hv]
        simpa using get?_append_succ A ((k', v') :: R) (key, value)
      obtain ⟨s', h1, h2, h3, h4⟩ := ih (A ++ [(key, value)]) k' v' (count + 1) fuel
        { (s.print (.record (count + 1) key value)) with
            ncget := s.ncget + 1, cur := ⟨true, A.length + 1, false⟩,
            trace := s.trace ++ [(.cursor_get, MDB_SUCCESS)] }
        (by simp [St.print, hv]) (by simp) (by simp at hf; omega)
      refine ⟨s', ?_, ?_, ?_, ?_⟩
      · simp only [query_loop, hp, if_true]
        rw [cursor_get_next_some b key value _ k' v' hget, hidx]
        simp only [MDB_SUCCESS, if_true]
        simp only [St.print, MDB_SUCCESS] at h1 ⊢
        rw [h1]
        simp [List.takeWhile, entryHasPfx, hp]
        omega
      · rw [h2]
        simp [List.takeWhile, entryHasPfx, hp, St.print, recordLines_cons]
      · rw [h3]; simp [St.print]
      · rw [h4]; simp [St.print]
    · refine ⟨s, ?_, ?_, rfl, rfl⟩
      · simp [query_loop, hp, List.takeWhile, entryHasPfx]
      · simp [List.takeWhile, entryHasPfx, hp, recordLines, numbered]

theorem get?_seekIdx (db : Store) (p : Key) :
    db[seekIdx db p]? = (db.dropWhile (entryBelow p)).head? := by
  have h := get?_append_self (db.takeWhile (entryBelow p)) (db.dropWhile (entryBelow p))
  rw [List.takeWhile_append_dropWhile] at h
  rw [seekIdx_eq]
  exact h

theorem records_recordLines (n : Nat) (l : List (Key × Val)) (rest : List Line) :
    records (recordLines n l ++ rest) = numbered n l ++ records rest := by
  induction l generalizing n with
  | nil => rfl
  | cons e l ih =>
    obtain ⟨k, v⟩ := e
    rw [recordLines_cons, List.cons_append]
    show (n + 1, k, v) :: records (recordLines (n + 1) l ++ rest) = _
    rw [ih]
    rfl

theorem query_by_prefix_run (b : Bool) (p : Key) (db : Store) :
    ( query_by_prefix (libOk b) p (St.start db)).map observe =
      some (MDB_SUCCESS, db,
        recordLines 0 ((db.dropWhile (entryBelow p)).takeWhile (entryHasPfx p)) ++
        [if db.dropWhile (entryBelow p) = [] then Line.no_match p
         else Line.found ((db.dropWhile (entryBelow p)).takeWhile (entryHasPfx p)).length]) := by
  have hsplit := List.takeWhile_append_dropWhile (entryBelow p) db
  have hget := get?_seekIdx db p
  cases hB : db.dropWhile (entryBelow p) with
  | nil =>
    rw [hB] at hget
    simp [ query_by_prefix, St.start, mdb_env_create, mdb_env_open, mdb_txn_begin,
        mdb_dbi_open, mdb_cursor_open, mdb_cursor_get, mdb_cursor_close, mdb_txn_abort,
        mdb_dbi_close, mdb_env_close, St.call, St.print, MDB_SUCCESS, MDB_NOTFOUND, hget,
        observe, recordLines, numbered]
  | cons e R =>
    obtain ⟨k, v⟩ := e
    rw [hB] at hget hsplit
    obtain ⟨s', h1, h2, h3, _⟩ := query_loop_run b p R (db.takeWhile (entryBelow p)) k v 0
      (db.length + 1)
      { db := db, view := db, cur := ⟨true, seekIdx db p, false⟩, nput := 0, ncget := 1,
        ncdel := 0,
        trace := [(.env_create, 0), (.env_open, 0), (.txn_begin, 0), (.dbi_open, 0),
                  (.cursor_open, 0), (.cursor_get, 0)],
        out := [] }
      hsplit.symm (by simp [seekIdx_eq])
      (by
        have := congrArg List.length hsplit
        simp at this
        omega)
    simp only [zero_add] at h1
    simp [ query_by_prefix, St.start, mdb_env_create, mdb_env_open, mdb_txn_begin,
        mdb_dbi_open, mdb_cursor_open, mdb_cursor_get, mdb_cursor_close, mdb_txn_abort,
        mdb_dbi_close, mdb_env_close, St.call, St.print, MDB_SUCCESS, MDB_NOTFOUND, hget,
        observe, h1, h2, h3]

theorem iterate_loop_run (b : Bool) (R : Store) :
    ∀ (A : Store) (key : Key) (value : Val) (count fuel : Nat) (s : St),
      s.view = A ++ R → nextIdx b s.cur = A.length → R.length < fuel →
      ∃ s', iterate_loop (libOk b) fuel key value count s =
          some (MDB_NOTFOUND, count + R.length, s') ∧
        s'.out = s.out ++ recordLines count R ∧ s'.db = s.db := by
  induction R with
  | nil =>
    intro A key value count fuel s hv hc hf
    obtain ⟨fuel, rfl⟩ : ∃ f, fuel = f + 1 := ⟨fuel - 1, by omega⟩
    have hget : s.view[nextIdx b s.cur]? = none := by
      rw [hc, hv]; simp
    refine ⟨{ s with ncget := s.ncget + 1,
                     trace := s.trace ++ [(.cursor_get, MDB_NOTFOUND)] }, ?_, ?_, rfl⟩
    · simp only [iterate_loop]
      rw [cursor_get_next_none b key value s hget]
      simp [MDB_NOTFOUND]
    · simp [recordLines, numbered]
  | cons e R ih =>
    intro A key value count fuel s hv hc hf
    obtain ⟨k', v'⟩ := e
    obtain ⟨fuel, rfl⟩ : ∃ f, fuel = f + 1 := ⟨fuel - 1, by omega⟩
    have hget : s.view[nextIdx b s.cur]? = some (k', v') := by
      rw [hc, hv]
      simpa using get?_append_self A ((k', v') :: R)
    obtain ⟨s', h1, h2, h3⟩ := ih (A ++ [(k', v')]) k' v' (count + 1) fuel
      (St.print { s with ncget := s.ncget + 1, cur := ⟨true, A.length, false⟩,
                         trace := s.trace ++ [(Api.cursor_get, MDB_SUCCESS)] }
          (Line.record (count + 1) k' v'))
      (by simp [St.print, hv]) (by simp [St.print, nextIdx]) (by simp at hf; omega)
    refine ⟨s', ?_, ?_, ?_⟩
    · simp only [iterate_loop]
      rw [cursor_get_next_some b key value s k' v' hget, hc]
      simp only [MDB_SUCCESS, if_true]
      simp only [MDB_SUCCESS] at h1
      rw [h1]
      simp
      omega
    · rw [h2]
      simp [St.print, recordLines_cons]
    · rw [h3]; simp [St.print]

theorem iterate_all_data_run (b : Bool) (db : Store) :
    (iterate_all_data (libOk b) (St.start db)).map observe =
      some (MDB_SUCCESS, db, recordLines 0 db ++ [Line.iterated db.length]) := by
  obtain ⟨s', h1, h2, h3⟩ := iterate_loop_run b db [] [] [] 0 (db.length + 1)
      { db := db, view := db, cur := ⟨false, 0, false⟩, nput := 0, ncget := 0, ncdel := 0,
        trace := [(.env_create, 0), (.env_open, 0), (.txn_begin, 0), (.dbi_open, 0),
                  (.cursor_open, 0)],
        out := [] }
      (by simp) (by simp [nextIdx]) (by omega)
  simp only [zero_add] at h1
  simp [iterate_all_data, St.start, mdb_env_create, mdb_env_open, mdb_txn_begin,
        mdb_dbi_open, mdb_cursor_open, mdb_cursor_close, mdb_txn_abort,
        mdb_dbi_close, mdb_env_close, St.call, St.print, MDB_SUCCESS, MDB_NOTFOUND,
        observe, h1, h2, h3]

theorem eraseIdx_append_self (A R : Store) (e : Key × Val) :
    (A ++ e :: R).eraseIdx A.length = A ++ R := by
  induction A with
  | nil => rfl
  | cons a A ih => simpa using ih

theorem cursor_del_ok (b : Bool) (s : St) (h1 : s.cur.init = true)
    (h2 : s.cur.idx < s.view.length) :
    mdb_cursor_del (libOk b) s =
      (MDB_SUCCESS,
        { s with ncdel := s.ncdel + 1, view := s.view.eraseIdx s.cur.idx,
                 cur := { s.cur with del := true },
                 trace := s.trace ++ [(.cursor_del, MDB_SUCCESS)] }) := by
  simp [mdb_cursor_del, h1, h2, St.call]

theorem delete_loop_run (p : Key) (R : Store) :
    ∀ (A : Store) (key : Key) (value : Val) (count fuel : Nat) (s : St),
      s.view = A ++ (key, value) :: R → s.cur = ⟨true, A.length, false⟩ → R.length < fuel →
      ∃ s', delete_loop (libOk true) p fuel key value count s =
          some (count + (((key, value) :: R).takeWhile (entryHasPfx p)).length, s') ∧
        s'.view = A ++ ((key, value) :: R).dropWhile (entryHasPfx p) ∧
        s'.out = s.out ++ deletingLines (((key, value) :: R).takeWhile (entryHasPfx p)) ∧
        s'.db = s.db := by
  induction R with
  | nil =>
    intro A key value count fuel s hv hc hf
    obtain ⟨fuel, rfl⟩ : ∃ f, fuel = f + 1 := ⟨fuel - 1, by omega⟩
    by_cases hp : keyHasPfx p key = true
    · have hdel := cursor_del_ok true (s.print (.deleting key))
        (by simp [St.print, hc]) (by simp [St.print, hc, hv])
      have hview : (s.print (.deleting key)).view.eraseIdx (s.print (.deleting key)).cur.idx
          = A := by
        simp only [St.print, hc, hv]
        simpa using eraseIdx_append_self A [] (key, value)
      rw [hview] at hdel
      refine ⟨{ s with ncdel := s.ncdel + 1, ncget := s.ncget + 1, view := A,
                       cur := ⟨true, A.length, true⟩,
                       out := s.out ++ [.deleting key],
                       trace := s.trace ++ [(.cursor_del, MDB_SUCCESS)] ++
                         [(.cursor_get, MDB_NOTFOUND)] }, ?_, ?_, ?_, rfl⟩
      · simp only [delete_loop, hp, if_true]
        rw [hdel]
        simp only [MDB_SUCCESS, ne_eq, not_true_eq_false, if_false]
        rw [cursor_get_next_none true key value _ (by simp [St.print, hc, nextIdx])]
        simp [List.takeWhile, entryHasPfx, hp, MDB_NOTFOUND, St.print, hc]
      · simp [List.dropWhile, entryHasPfx, hp]
      · simp [List.takeWhile, entryHasPfx, hp, deletingLines]
    · refine ⟨s, ?_, ?_, ?_, rfl⟩
      · simp [delete_loop, hp, List.takeWhile, entryHasPfx]
      · simp [List.dropWhile, entryHasPfx, hp, hv]
      · simp [List.takeWhile, entryHasPfx, hp, deletingLines]
  | cons e R ih =>
    intro A key value count fuel s hv hc hf
    obtain ⟨k', v'⟩ := e
    obtain ⟨fuel, rfl⟩ : ∃ f, fuel = f + 1 := ⟨fuel - 1, by omega⟩
    by_cases hp : keyHasPfx p key = true
    · have hdel := cursor_del_ok true (s.print (.deleting key))
        (by simp [St.print, hc]) (by simp [St.print, hc, hv])
      have hview : (s.print (.deleting key)).view.eraseIdx (s.print (.deleting key)).cur.idx
          = A ++ (k', v') :: R := by
        simp only [St.print, hc, hv]
        exact eraseIdx_append_self A ((k', v') :: R) (key, value)
      rw [hview] at hdel
      obtain ⟨s', h1, h2, h3, h4⟩ := ih A k' v' (count + 1) fuel
        { s with ncdel := s.ncdel + 1, ncget := s.ncget + 1, view := A ++ (k', v') :: R,
                 cur := ⟨true, A.length, false⟩,
                 out := s.out ++ [.deleting key],
                 trace := s.trace ++ [(.cursor_del, MDB_SUCCESS)] ++
                   [(.cursor_get, MDB_SUCCESS)] }
        rfl rfl (by simp at hf; omega)
      refine ⟨s', ?_, ?_, ?_, ?_⟩
      · simp only [delete_loop, hp, if_true]
        rw [hdel]
        simp only [MDB_SUCCESS, ne_eq, not_true_eq_false, if_false]
        rw [cursor_get_next_some true key value _ k' v'
          (by simpa [St.print, hc, nextIdx] using get?_append_self A ((k', v') :: R))]
        simp only [MDB_SUCCESS, if_true]
        simp only [St.print, MDB_SUCCESS, hc, nextIdx] at h1 ⊢
        simp at h1 ⊢
        rw [h1]
        simp [List.takeWhile, entryHasPfx, hp]
        omega
      · rw [h2]
        simp [List.dropWhile, entryHasPfx, hp]
      · rw [h3]
        simp [List.takeWhile, entryHasPfx, hp, deletingLines]
      · rw [h4]
    · refine ⟨s, ?_, ?_, ?_, rfl⟩
      · simp [delete_loop, hp, List.takeWhile, entryHasPfx]
      · simp [List.dropWhile, entryHasPfx, hp, hv]
      · simp [List.takeWhile, entryHasPfx, hp, deletingLines]

theorem delete_by_prefix_run (p : Key) (db : Store) :
    ( delete_by_prefix (libOk true) p (St.start db)).map observe =
      some (MDB_SUCCESS,
        db.takeWhile (entryBelow p) ++ (db.dropWhile (entryBelow p)).dropWhile (entryHasPfx p),
        deletingLines ((db.dropWhile (entryBelow p)).takeWhile (entryHasPfx p)) ++
        [if db.dropWhile (entryBelow p) = [] then Line.no_match p
         else Line.batch_deleted
           ((db.dropWhile (entryBelow p)).takeWhile (entryHasPfx p)).length]) := by
  have hsplit := List.takeWhile_append_dropWhile (entryBelow p) db
  have hget := get?_seekIdx db p
  cases hB : db.dropWhile (entryBelow p) with
  | nil =>
    rw [hB] at hget hsplit
    simp only [List.append_nil] at hsplit
    simp [ delete_by_prefix, St.start, mdb_env_create, mdb_env_open, mdb_txn_begin,
        mdb_dbi_open, mdb_cursor_open, mdb_cursor_get, mdb_cursor_close, mdb_txn_abort,
        mdb_dbi_close, mdb_env_close, St.call, St.print, MDB_SUCCESS, MDB_NOTFOUND, hget,
        observe, deletingLines, hsplit]
  | cons e R =>
    obtain ⟨k, v⟩ := e
    rw [hB] at hget hsplit
    obtain ⟨s', h1, h2, h3, h4⟩ := delete_loop_run p R (db.takeWhile (entryBelow p)) k v 0
      (db.length + 1)
      { db := db, view := db, cur := ⟨true, seekIdx db p, false⟩, nput := 0, ncget := 1,
        ncdel := 0,
        trace := [(.env_create, 0), (.env_open, 0), (.txn_begin, 0), (.dbi_open, 0),
                  (.cursor_open, 0), (.cursor_get, 0)],
        out := [] }
      hsplit.symm (by simp [seekIdx_eq])
      (by
        have := congrArg List.length hsplit
        simp at this
        omega)
    simp only [zero_add] at h1
    by_cases hc : 0 < (((k, v) :: R).takeWhile (entryHasPfx p)).length
    · simp [ delete_by_prefix, St.start, mdb_env_create, mdb_env_open, mdb_txn_begin,
        mdb_dbi_open, mdb_cursor_open, mdb_cursor_get, mdb_cursor_close, mdb_txn_abort,
        mdb_txn_commit, mdb_dbi_close, mdb_env_close, St.call, St.print, MDB_SUCCESS,
        MDB_NOTFOUND, hget, observe, h1, h2, h3, h4, hc]
    · have hM : ((k, v) :: R).takeWhile (entryHasPfx p) = [] := by
        cases hm : ((k, v) :: R).takeWhile (entryHasPfx p) with
        | nil => rfl
        | cons a l => rw [hm] at hc; simp at hc
      have hD : ((k, v) :: R).dropWhile (entryHasPfx p) = (k, v) :: R := by
        have := List.takeWhile_append_dropWhile (entryHasPfx p) ((k, v) :: R)
        rw [hM] at this
        simpa using this
      simp [ delete_by_prefix, St.start, mdb_env_create, mdb_env_open, mdb_txn_begin,
        mdb_dbi_open, mdb_cursor_open, mdb_cursor_get, mdb_cursor_close, mdb_txn_abort,
        mdb_txn_commit, mdb_dbi_close, mdb_env_close, St.call, St.print, MDB_SUCCESS,
        MDB_NOTFOUND, hget, observe, h1, h3, h4, hc, hD, hsplit]

theorem split_at_index (l : Store) (i : Nat) (e : Key × Val) (h : l[i]? = some e) :
    l = l.take i ++ e :: l.drop (i + 1) ∧ (l.take i).length = i := by
  induction l generalizing i with
  | nil => simp at h
  | cons a l ih =>
    cases i with
    | zero => simp at h; simp [h]
    | succ i =>
      simp only [List.getElem?_cons_succ] at h
      obtain ⟨h1, h2⟩ := ih i h
      refine ⟨?_, by simp [h2]⟩
      simp only [List.take_succ_cons, List.drop_succ_cons, List.cons_append]
      rw [← h1]

/-- Whatever `MDB_NEXT` does after a cursor delete, the delete loop ends within the
fuel `delete_by_prefix` gives it, and prints nothing but the keys it deletes. -/
theorem delete_loop_total (b : Bool) (p : Key) (fuel : Nat) :
    ∀ (R A : Store) (key : Key) (value : Val) (count : Nat) (s : St),
      s.view = A ++ (key, value) :: R → s.cur = ⟨true, A.length, false⟩ → R.length < fuel →
      ∃ c s', delete_loop (libOk b) p fuel key value count s = some (c, s') ∧
        (∀ l ∈ s'.out, l ∈ s.out ∨ ∃ k, l = Line.deleting k) ∧ s'.db = s.db := by
  induction fuel with
  | zero => intro R A key value count s _ _ hf; omega
  | succ fuel ih =>
    intro R A key value count s hv hc hf
    by_cases hp : keyHasPfx p key = true
    · have hdel := cursor_del_ok b (s.print (.deleting key))
        (by simp [St.print, hc]) (by simp [St.print, hc, hv])
      have hview : (s.print (.deleting key)).view.eraseIdx (s.print (.deleting key)).cur.idx
          = A ++ R := by
        simp only [St.print, hc, hv]
        exact eraseIdx_append_self A R (key, value)
      rw [hview] at hdel
      simp only [delete_loop, hp, if_true]
      rw [hdel]
      simp only [MDB_SUCCESS, ne_eq, not_true_eq_false, if_false]
      cases hg : (A ++ R)[nextIdx b ⟨true, A.length, true⟩]? with
      | none =>
        rw [cursor_get_next_none b key value _ (by simpa [St.print, hc] using hg)]
        refine ⟨_, _, rfl, ?_, ?_⟩
        · intro l hl
          simp [St.print] at hl
          rcases hl with hl | hl
          · exact Or.inl hl
          · exact Or.inr ⟨key, hl⟩
        · simp [St.print]
      | some e =>
        obtain ⟨k', v'⟩ := e
        rw [cursor_get_next_some b key value _ k' v' (by simpa [St.print, hc] using hg)]
        simp only [MDB_SUCCESS, if_true]
        obtain ⟨hs1, hs2⟩ := split_at_index _ _ _ hg
        have hlen : ((A ++ R).drop (nextIdx b ⟨true, A.length, true⟩ + 1)).length < fuel := by
          have hi : A.length ≤ nextIdx b ⟨true, A.length, true⟩ := by
            cases b <;> simp [nextIdx]
          have hl := congrArg List.length hs1
          simp only [List.length_append, List.length_cons, hs2, List.length_drop] at hl
          simp only [List.length_drop, List.length_append]
          omega
        obtain ⟨c, s', h1, h2, h3⟩ := ih _ _ k' v' (count + 1)
          { s with ncdel := s.ncdel + 1, ncget := s.ncget + 1, view := A ++ R,
                   cur := ⟨true, nextIdx b ⟨true, A.length, true⟩, false⟩,
                   out := s.out ++ [.deleting key],
                   trace := s.trace ++ [(.cursor_del, MDB_SUCCESS)] ++
                     [(.cursor_get, MDB_SUCCESS)] }
          hs1 (by simp [hs2]) hlen
        refine ⟨c, s', ?_, ?_, ?_⟩
        · simp only [St.print, hc, MDB_SUCCESS] at h1 ⊢
          exact h1
        · intro l hl
          rcases h2 l hl with hl | hl
          · simp at hl
            rcases hl with hl | hl
            · exact Or.inl hl
            · exact Or.inr ⟨key, hl⟩
          · exact Or.inr hl
        · rw [h3]
    · refine ⟨count, s, ?_, fun l hl => Or.inl hl, rfl⟩
      simp [delete_loop, hp]

/-! ## The batch write -/

theorem put_batch_loop_ok (L : Lib) (pairs : List (Key × Val)) :
    ∀ (i : Nat) (s : St), (∀ j, j < pairs.length → L.put (s.nput + j) = 0) →
      ∃ s', put_batch_loop L pairs i s = (MDB_SUCCESS, s') ∧
        s'.view = pairs.foldl (fun st e => storePut st e.1 e.2) s.view ∧ s'.db = s.db := by
  induction pairs with
  | nil => intro i s _; exact ⟨s, rfl, rfl, rfl⟩
  | cons e rest ih =>
    intro i s h
    obtain ⟨k, v⟩ := e
    have h0 : L.put s.nput = 0 := by simpa using h 0 (by simp)
    obtain ⟨s', h1, h2, h3⟩ := ih (i + 1)
      (St.print ({ s with nput := s.nput + 1, view := storePut s.view k v }.call
        .put MDB_SUCCESS) (.batch_item (i + 1) k v))
      (by
        intro j hj
        have := h (j + 1) (by simpa using hj)
        simpa [St.print, St.call, Nat.add_assoc, Nat.add_comm 1 j] using this)
    refine ⟨s', ?_, ?_, ?_⟩
    · simp only [put_batch_loop, mdb_put, h0, ne_eq, not_true_eq_false, if_false, MDB_SUCCESS]
      simpa [MDB_SUCCESS] using h1
    · rw [h2]; simp [St.print, St.call]
    · rw [h3]; simp [St.print, St.call]

theorem put_batch_loop_fails (L : Lib) (pairs : List (Key × Val)) :
    ∀ (i m : Nat) (s : St), m < pairs.length → (∀ j, j < m → L.put (s.nput + j) = 0) →
      L.put (s.nput + m) ≠ 0 →
      ∃ s', put_batch_loop L pairs i s = (L.put (s.nput + m), s') ∧ s'.db = s.db ∧
        s'.trace = s.trace ++ List.replicate m (Api.put, 0) ++
          [(Api.put, L.put (s.nput + m)), (Api.txn_abort, 0), (Api.dbi_close, 0),
           (Api.env_close, 0)] := by
  induction pairs with
  | nil => intro i m s hm; simp at hm
  | cons e rest ih =>
    intro i m s hm h hne
    obtain ⟨k, v⟩ := e
    cases m with
    | zero =>
      simp only [Nat.add_zero] at hne ⊢
      refine ⟨mdb_env_close (mdb_dbi_close (mdb_txn_abort (St.print
        (St.call { s with nput := s.nput + 1 } Api.put (L.put s.nput))
        (Line.err (L.put s.nput))))), ?_, ?_, ?_⟩
      · simp only [put_batch_loop, mdb_put, hne, ne_eq, not_false_eq_true, if_true, MDB_SUCCESS]
      · simp [St.print, St.call, mdb_txn_abort, mdb_dbi_close, mdb_env_close]
      · simp [St.print, St.call, mdb_txn_abort, mdb_dbi_close, mdb_env_close]
    | succ m =>
      have h0 : L.put s.nput = 0 := by simpa using h 0 (by omega)
      obtain ⟨s', h1, h2, h3⟩ := ih (i + 1) m
        (St.print ({ s with nput := s.nput + 1, view := storePut s.view k v }.call
          .put MDB_SUCCESS) (.batch_item (i + 1) k v))
        (by simpa using hm)
        (by
          intro j hj
          have := h (j + 1) (by omega)
          simpa [St.print, St.call, Nat.add_assoc, Nat.add_comm 1 j] using this)
        (by simpa [St.print, St.call, Nat.add_assoc, Nat.add_comm 1 m] using hne)
      have hidx : s.nput + 1 + m = s.nput + (m + 1) := by omega
      refine ⟨s', ?_, ?_, ?_⟩
      · simp only [put_batch_loop, mdb_put, h0, ne_eq, not_true_eq_false, if_false, MDB_SUCCESS]
        simp only [St.print, St.call, MDB_SUCCESS, hidx] at h1
        simpa [St.print, St.call, MDB_SUCCESS] using h1
      · rw [h2]; simp [St.print, St.call]
      · rw [h3]
        simp [St.print, St.call, MDB_SUCCESS, hidx, List.replicate_succ]

/-! ## From observations to runs -/

theorem observe_some {x : Option (Int × St)} {rc : Int} {db : Store} {out : List Line}
    (h : x.map observe = some (rc, db, out)) :
    ∃ s', x = some (rc, s') ∧ s'.db = db ∧ s'.out = out := by
  cases x with
  | none => simp at h
  | some r =>
    obtain ⟨rc', s'⟩ := r
    simp only [Option.map_some', observe, Option.some.injEq, Prod.mk.injEq] at h
    obtain ⟨h1, h2, h3⟩ := h
    subst h1
    exact ⟨s', rfl, h2, h3⟩

theorem entryHasPfx_eq (p : Key) : entryHasPfx p = fun e => decide (p <+: e.1) := by
  funext e
  by_cases h : p <+: e.1
  · simp [entryHasPfx, (keyHasPfx_iff p e.1).mpr h, h]
  · have : keyHasPfx p e.1 = false := by
      cases hk : keyHasPfx p e.1
      · rfl
      · exact absurd ((keyHasPfx_iff p e.1).mp hk) h
    simp [entryHasPfx, this, h]

theorem numbered_keys (n : Nat) (l : List (Key × Val)) :
    (numbered n l).map (fun r => r.2.1) = l.map Prod.fst := by
  induction l generalizing n with
  | nil => rfl
  | cons e l ih =>
    obtain ⟨k, v⟩ := e
    simp [numbered, ih]

theorem sorted_keys_filter (db : Store) (f : Key × Val → Bool) (hs : StoreSorted db) :
    ((db.filter f).map Prod.fst).Pairwise (fun a c => keyLt a c = true) := by
  rw [List.pairwise_map]
  exact List.Pairwise.sublist (List.filter_sublist db) hs

theorem records_single_found (n : Nat) : records [Line.found n] = [] := rfl

theorem records_single_no_match (p : Key) : records [Line.no_match p] = [] := rfl

theorem records_single_iterated (n : Nat) : records [Line.iterated n] = [] := rfl

theorem delete_by_prefix_branch (b : Bool) (p : Key) (db : Store) :
    ∃ s', delete_by_prefix (libOk b) p (St.start db) = some (MDB_SUCCESS, s') ∧
      (Line.no_match p ∈ s'.out ↔ db.dropWhile (entryBelow p) = []) := by
  have hsplit := List.takeWhile_append_dropWhile (entryBelow p) db
  have hget := get?_seekIdx db p
  cases hB : db.dropWhile (entryBelow p) with
  | nil =>
    rw [hB] at hget
    simp [ delete_by_prefix, St.start, mdb_env_create, mdb_env_open, mdb_txn_begin,
        mdb_dbi_open, mdb_cursor_open, mdb_cursor_get, mdb_cursor_close, mdb_txn_abort,
        mdb_dbi_close, mdb_env_close, St.call, St.print, MDB_SUCCESS, MDB_NOTFOUND, hget]
  | cons e R =>
    obtain ⟨k, v⟩ := e
    rw [hB] at hget hsplit
    obtain ⟨c, s', h1, h2, h3⟩ := delete_loop_total b p (db.length + 1) R
      (db.takeWhile (entryBelow p)) k v 0
      { db := db, view := db, cur := ⟨true, seekIdx db p, false⟩, nput := 0, ncget := 1,
        ncdel := 0,
        trace := [(.env_create, 0), (.env_open, 0), (.txn_begin, 0), (.dbi_open, 0),
                  (.cursor_open, 0), (.cursor_get, 0)],
        out := [] }
      hsplit.symm (by simp [seekIdx_eq])
      (by
        have := congrArg List.length hsplit
        simp at this
        omega)
    have hno : Line.no_match p ∉ s'.out := by
      intro hmem
      rcases h2 _ hmem with h | ⟨k', h⟩
      · simp at h
      · cases h
    by_cases hc : 0 < c
    · simp [ delete_by_prefix, St.start, mdb_env_create, mdb_env_open, mdb_txn_begin,
        mdb_dbi_open, mdb_cursor_open, mdb_cursor_get, mdb_cursor_close, mdb_txn_abort,
        mdb_txn_commit, mdb_dbi_close, mdb_env_close, St.call, St.print, MDB_SUCCESS,
        MDB_NOTFOUND, hget, h1, hc, hno]
    · simp [ delete_by_prefix, St.start, mdb_env_create, mdb_env_open, mdb_txn_begin,
        mdb_dbi_open, mdb_cursor_open, mdb_cursor_get, mdb_cursor_close, mdb_txn_abort,
        mdb_txn_commit, mdb_dbi_close, mdb_env_close, St.call, St.print, MDB_SUCCESS,
        MDB_NOTFOUND, hget, h1, hc, hno]

/-- After any sequence of writes on the empty store, all library calls succeeding,
`get_data` answers with the expected value. -/
theorem get_data_after_ops (stays : Bool) (ops : List Op) (k : Key) :
    observe (get_data (libOk stays) k (St.start (runOps (libOk stays) [] ops))) =
      match expectedValue ops k with
      | some v => (MDB_SUCCESS, runOps (libOk stays) [] ops, [Line.read_ok k v])
      | none => (MDB_NOTFOUND, runOps (libOk stays) [] ops, [Line.key_absent k]) := by
  rw [get_data_run (libOk stays) k _ rfl rfl rfl rfl rfl, storeGet_runOps]
  cases expectedValue ops k <;> rfl

/-! ## The claims -/

set_option maxRecDepth 100000

/-- C1. Write/read round trip.  Take any sequence of `put_single_data` and
`delete_data` calls on the empty store in which every library call succeeds (a
delete of an absent key answering `MDB_NOTFOUND`), and a key `k`; split the sequence
at the latest call on `k`, so that `post` holds no call on `k`.  If that call is
`put_single_data(k, v)`, a following `get_data(k)` returns `MDB_SUCCESS` and prints
`v`; if it is `delete_data(k)`, or if there is no call on `k` at all, `get_data(k)`
returns `MDB_NOTFOUND`.  The read leaves the committed store as it was. -/
theorem put_delete_get_roundtrip (stays : Bool) (pre post : List Op) (k : Key)
    (h : ∀ o ∈ post, o ≠ Op.del k ∧ ∀ v, o ≠ Op.put k v) :
    (∀ v, observe (get_data (libOk stays) k
        (St.start (runOps (libOk stays) [] (pre ++ Op.put k v :: post)))) =
      (MDB_SUCCESS, runOps (libOk stays) [] (pre ++ Op.put k v :: post),
        [Line.read_ok k v])) ∧
    observe (get_data (libOk stays) k
        (St.start (runOps (libOk stays) [] (pre ++ Op.del k :: post)))) =
      (MDB_NOTFOUND, runOps (libOk stays) [] (pre ++ Op.del k :: post),
        [Line.key_absent k]) ∧
    observe (get_data (libOk stays) k (St.start (runOps (libOk stays) [] post))) =
      (MDB_NOTFOUND, runOps (libOk stays) [] post, [Line.key_absent k]) := by
  refine ⟨fun v => ?_, ?_, ?_⟩
  · rw [get_data_after_ops, expectedValue_last_put pre post k v h]
  · rw [get_data_after_ops, expectedValue_last_del pre post k h]
  · rw [get_data_after_ops, expectedValue_never_written post k h]

/-- Witness of C1: `main`'s write of "test_key", then a write and a delete of another
key; "test_key" still reads "test_value". -/
theorem put_delete_get_roundtrip_witness :
    observe (get_data (libOk true) (cstr "test_key")
        (St.start (runOps (libOk true) []
          ([] ++ Op.put (cstr "test_key") (cstr "test_value") ::
            [Op.put (cstr "log/2024-01-01") (cstr "System started"),
             Op.del (cstr "log/2024-01-01")])))) =
      (MDB_SUCCESS,
        runOps (libOk true) []
          ([] ++ Op.put (cstr "test_key") (cstr "test_value") ::
            [Op.put (cstr "log/2024-01-01") (cstr "System started"),
             Op.del (cstr "log/2024-01-01")]),
        [Line.read_ok (cstr "test_key") (cstr "test_value")]) :=
  (put_delete_get_roundtrip true []
    [Op.put (cstr "log/2024-01-01") (cstr "System started"), Op.del (cstr "log/2024-01-01")]
    (cstr "test_key")
    (by
      intro o ho
      have hk : cstr "log/2024-01-01" ≠ cstr "test_key" := by decide
      rcases List.mem_cons.mp ho with rfl | ho
      · exact ⟨by simp, fun v => by simp [hk]⟩
      · rcases List.mem_cons.mp ho with rfl | ho
        · exact ⟨by simp [hk], fun v => by simp⟩
        · cases ho)).1 (cstr "test_value")

/-- C2. Prefix query.  For every sorted store and non-empty prefix, when every library
call succeeds, `query_by_prefix` returns, its numbered record lines are exactly the
stored entries whose key starts with the prefix, each once and in store order, their
keys are strictly ascending, and the count it ends with is their number: it prints
"found n" with that number, or takes the not-found branch, and then there is no
such entry. -/
theorem query_by_prefix_reports (stays : Bool) (pfx : Key) (db : Store)
    (_hp : pfx ≠ []) (hs : StoreSorted db) :
    ∃ s', query_by_prefix (libOk stays) pfx (St.start db) = some (MDB_SUCCESS, s') ∧
      records s'.out = numbered 0 (db.filter fun e => decide (pfx <+: e.1)) ∧
      ((records s'.out).map fun r => r.2.1).Pairwise (fun a c => keyLt a c = true) ∧
      (Line.found (db.filter fun e => decide (pfx <+: e.1)).length ∈ s'.out ∨
        (Line.no_match pfx ∈ s'.out ∧ (db.filter fun e => decide (pfx <+: e.1)) = [])) := by
  obtain ⟨s', h1, _, h3⟩ := observe_some (query_by_prefix_run stays pfx db)
  have hf := filter_pfx_sorted db pfx hs
  rw [entryHasPfx_eq] at hf h3
  rw [← hf] at h3
  have hrec : records s'.out = numbered 0 (db.filter fun e => decide (pfx <+: e.1)) := by
    rw [h3, records_recordLines]
    split <;> simp [records]
  refine ⟨s', h1, hrec, ?_, ?_⟩
  · rw [hrec, numbered_keys]
    exact sorted_keys_filter db _ hs
  · by_cases hB : db.dropWhile (entryBelow pfx) = []
    · right
      refine ⟨by simp [h3, hB], ?_⟩
      rw [hf, hB]
      rfl
    · left
      simp [h3, hB]

/-- Witness of C2: the query for "battery" on the store `main` has filled. -/
theorem query_by_prefix_reports_witness :
    cstr "battery" ≠ [] ∧ StoreSorted filledStore ∧
    ∃ s', query_by_prefix (libOk true) (cstr "battery") (St.start filledStore) =
        some (MDB_SUCCESS, s') ∧
      records s'.out =
        numbered 0 (filledStore.filter fun e => decide (cstr "battery" <+: e.1)) :=
  ⟨by decide, by decide,
    (query_by_prefix_reports true (cstr "battery") filledStore (by decide) (by decide)).imp
      fun _ h => ⟨h.1, h.2.1⟩⟩

/-- Remark on the cursor contract.  The delete loop relies on LMDB's `MDB_NEXT` not
advancing right after `mdb_cursor_del`.  Under a cursor that LMDB does not have, whose
`MDB_NEXT` would advance from the position the delete left it on,
`delete_by_prefix("log")` on the store `main` has filled would delete
`log/2024-01-01` and `log/2024-01-03`, report 2, and keep `log/2024-01-02`. -/
theorem delete_by_prefix_skips_when_next_advances :
    StoreSorted filledStore ∧
    (filledStore.filter fun e => decide (cstr "log" <+: e.1)).length = 3 ∧
    ( delete_by_prefix (libOk false) (cstr "log") (St.start filledStore)).map
        (fun r => (r.1, r.2.db.filter (fun e => decide (cstr "log" <+: e.1)), r.2.out)) =
      some (MDB_SUCCESS, [(cstr "log/2024-01-02", cstr "Normal operation")],
        [Line.deleting (cstr "log/2024-01-01"), Line.deleting (cstr "log/2024-01-03"),
         Line.batch_deleted 2]) := by
  decide

/-- C3. Prefix delete.  For every sorted store and non-empty prefix, when every library
call succeeds, with the cursor of LMDB (the cursor delete removes the entry the
cursor is on and repositions to the next surviving entry; the `MDB_NEXT` the loop
then issues returns that entry), `delete_by_prefix` returns with a committed store
that is the previous store without the entries whose key starts with the prefix
(all other entries unchanged, in order), and the count it reports is the number of
keys that started with the prefix: it prints "deleted n" with that number, or takes
the not-found branch, and then no key started with the prefix. -/
theorem delete_by_prefix_removes (pfx : Key) (db : Store)
    (_hp : pfx ≠ []) (hs : StoreSorted db) :
    ∃ s', delete_by_prefix (libOk true) pfx (St.start db) = some (MDB_SUCCESS, s') ∧
      s'.db = db.filter (fun e => !decide (pfx <+: e.1)) ∧
      (Line.batch_deleted (db.filter fun e => decide (pfx <+: e.1)).length ∈ s'.out ∨
        (Line.no_match pfx ∈ s'.out ∧ (db.filter fun e => decide (pfx <+: e.1)) = [])) := by
  obtain ⟨s', h1, h2, h3⟩ := observe_some ( delete_by_prefix_run pfx db)
  have hf := filter_pfx_sorted db pfx hs
  have hn := filter_not_pfx_sorted db pfx hs
  rw [entryHasPfx_eq] at hf hn h2 h3
  rw [← hf] at h3
  refine ⟨s', h1, ?_, ?_⟩
  · rw [h2, ← hn]
  · by_cases hB : db.dropWhile (entryBelow pfx) = []
    · right
      refine ⟨by simp [h3, hB], ?_⟩
      rw [hf, hB]
      rfl
    · left
      simp [h3, hB]

/-- Witness of C3: deleting "log" from the store `main` has filled. -/
theorem delete_by_prefix_removes_witness :
    cstr "log" ≠ [] ∧ StoreSorted filledStore ∧
    ∃ s', delete_by_prefix (libOk true) (cstr "log") (St.start filledStore) =
        some (MDB_SUCCESS, s') ∧
      s'.db = filledStore.filter (fun e => !decide (cstr "log" <+: e.1)) :=
  ⟨by decide, by decide,
    ( delete_by_prefix_removes (cstr "log") filledStore (by decide) (by decide)).imp
      fun _ h => ⟨h.1, h.2.1⟩⟩

/-- C4. Full scan.  For every sorted store of N entries, when every library call
succeeds, `iterate_all_data` returns, its numbered record lines are the N entries of
the store, each once and in store order, their keys strictly ascending, and the
loop ends on `MDB_NOTFOUND` with the message "N records in total"; on the store
obtained from the empty one by `put_single_data("test_key", "test_value")` and
`put_batch_data`, N is 16. -/
theorem iterate_all_data_visits (stays : Bool) (db : Store) (hs : StoreSorted db) :
    (∃ s', iterate_all_data (libOk stays) (St.start db) = some (MDB_SUCCESS, s') ∧
      records s'.out = numbered 0 db ∧
      ((records s'.out).map fun r => r.2.1).Pairwise (fun a c => keyLt a c = true) ∧
      s'.out.getLast? = some (Line.iterated db.length)) ∧
    (∃ s', iterate_all_data (libOk stays) (St.start filledStore) = some (MDB_SUCCESS, s') ∧
      s'.out.getLast? = some (Line.iterated 16)) := by
  constructor
  · obtain ⟨s', h1, _, h3⟩ := observe_some (iterate_all_data_run stays db)
    have hrec : records s'.out = numbered 0 db := by
      rw [h3, records_recordLines]
      simp [records]
    refine ⟨s', h1, hrec, ?_, by simp [h3]⟩
    rw [hrec, numbered_keys, List.pairwise_map]
    exact hs
  · obtain ⟨s', h1, _, h3⟩ := observe_some (iterate_all_data_run stays filledStore)
    refine ⟨s', h1, ?_⟩
    have hlen : filledStore.length = 16 := by decide
    simp [h3, hlen]

/-- Witness of C4: the scan of the store `main` has filled. -/
theorem iterate_all_data_visits_witness :
    StoreSorted filledStore ∧
    ∃ s', iterate_all_data (libOk true) (St.start filledStore) = some (MDB_SUCCESS, s') ∧
      records s'.out = numbered 0 filledStore :=
  ⟨by decide,
    (iterate_all_data_visits true filledStore (by decide)).1.imp fun _ h => ⟨h.1, h.2.1⟩⟩

/-- C5, as stated, fails.  With environment open, transaction begin (and commit)
succeeding, `mdb_del` can still fail for a reason other than absence; `delete_data`
then takes its third branch: on the store `main` has filled, with `mdb_del` failing
on `MDB_MAP_FULL`, `delete_data("test_key")` returns `MDB_MAP_FULL`, not `MDB_SUCCESS`,
although the key is present; it aborts and the store is unchanged. -/
theorem delete_data_other_failure :
    cstr "test_key" ∈ filledStore.map Prod.fst ∧
    libDelFails.env_create = 0 ∧ libDelFails.env_open = 0 ∧ libDelFails.txn_begin = 0 ∧
    libDelFails.txn_commit = 0 ∧
    (delete_data libDelFails (cstr "test_key") (St.start filledStore)).1 = MDB_MAP_FULL ∧
    (delete_data libDelFails (cstr "test_key") (St.start filledStore)).1 ≠ MDB_SUCCESS ∧
    (delete_data libDelFails (cstr "test_key") (St.start filledStore)).2.db = filledStore ∧
    (delete_data libDelFails (cstr "test_key") (St.start filledStore)).2.trace =
      [(Api.env_create, 0), (Api.env_open, 0), (Api.txn_begin, 0), (Api.dbi_open, 0),
       (Api.del, MDB_MAP_FULL), (Api.txn_abort, 0), (Api.dbi_close, 0),
       (Api.env_close, 0)] := by
  decide

/-- C5, amended.  When `mdb_env_create`, `mdb_env_open`, `mdb_txn_begin`,
`mdb_dbi_open` and `mdb_txn_commit` succeed: if `mdb_del` fails only for absence,
`delete_data` returns `MDB_SUCCESS` exactly when the key was present, and then the
transaction is committed and the committed store is the previous one without that
key, every other entry unchanged, while for an absent key it returns
`MDB_NOTFOUND`, aborts the transaction without any commit, and the committed store is
unchanged; if `mdb_del` fails for another reason, `delete_data` returns that error,
aborts the transaction without any commit, and the committed store is unchanged. -/
theorem delete_data_spec (L : Lib) (key : Key) (db : Store)
    (h1 : L.env_create = 0) (h2 : L.env_open = 0) (h3 : L.txn_begin = 0)
    (h4 : L.dbi_open = 0) (h6 : L.txn_commit = 0) :
    (L.del = 0 →
      ((delete_data L key (St.start db)).1 = MDB_SUCCESS ↔ key ∈ db.map Prod.fst) ∧
      (key ∈ db.map Prod.fst →
        (delete_data L key (St.start db)).2.db = db.filter (fun e => decide (e.1 ≠ key)) ∧
        (Api.txn_commit, 0) ∈ (delete_data L key (St.start db)).2.trace ∧
        (Api.txn_abort, 0) ∉ (delete_data L key (St.start db)).2.trace) ∧
      (key ∉ db.map Prod.fst →
        (delete_data L key (St.start db)).1 = MDB_NOTFOUND ∧
        (delete_data L key (St.start db)).2.db = db ∧
        (Api.txn_abort, 0) ∈ (delete_data L key (St.start db)).2.trace ∧
        ∀ rc, (Api.txn_commit, rc) ∉ (delete_data L key (St.start db)).2.trace)) ∧
    (L.del ≠ 0 →
      (delete_data L key (St.start db)).1 = L.del ∧
      (delete_data L key (St.start db)).2.db = db ∧
      (Api.txn_abort, 0) ∈ (delete_data L key (St.start db)).2.trace ∧
      ∀ rc, (Api.txn_commit, rc) ∉ (delete_data L key (St.start db)).2.trace) := by
  constructor
  · intro h5
    rw [delete_data_run L key db h1 h2 h3 h4 h5 h6]
    cases h : storeGet db key with
    | none =>
      have hab := (storeGet_eq_none_iff db key).mp h
      refine ⟨?_, fun hin => absurd hin hab, fun _ => ?_⟩
      · simp [hab, MDB_NOTFOUND, MDB_SUCCESS]
      · simp [MDB_NOTFOUND]
    | some v =>
      have hin : key ∈ db.map Prod.fst := by
        by_contra hc
        rw [(storeGet_eq_none_iff db key).mpr hc] at h
        cases h
      refine ⟨?_, fun _ => ?_, fun hab => absurd hin hab⟩
      · simp [hin]
      · simp [storeDel]
  · intro h5
    by_cases hnf : L.del = -30798
    · simp [delete_data, St.start, mdb_env_create, mdb_env_open, mdb_txn_begin,
        mdb_dbi_open, mdb_del, mdb_txn_abort, mdb_dbi_close, mdb_env_close,
        St.call, St.print, MDB_SUCCESS, MDB_NOTFOUND, h1, h2, h3, h4, hnf]
    · simp [delete_data, St.start, mdb_env_create, mdb_env_open, mdb_txn_begin,
        mdb_dbi_open, mdb_del, mdb_txn_abort, mdb_dbi_close, mdb_env_close,
        St.call, St.print, MDB_SUCCESS, MDB_NOTFOUND, h1, h2, h3, h4, h5, hnf]

/-- Witness of C5 amended: deleting "test_key", which is present, from the store
`main` has filled, every library call succeeding. -/
theorem delete_data_spec_witness :
    cstr "test_key" ∈ filledStore.map Prod.fst ∧
    ((delete_data (libOk true) (cstr "test_key") (St.start filledStore)).1 = MDB_SUCCESS ↔
      cstr "test_key" ∈ filledStore.map Prod.fst) :=
  ⟨by decide,
    ((delete_data_spec (libOk true) (cstr "test_key") filledStore rfl rfl rfl rfl rfl).1
      rfl).1⟩

/-- C6. Batch write is all or nothing.  When the environment and the transaction
are opened: if the `mdb_put` of pair `i` fails (those before it having succeeded),
`put_batch_data` returns that error code, its last call on the transaction is
`mdb_txn_abort`, there is no commit, and the committed store is what it was before
the call; if all 15 puts and the commit succeed, it returns `MDB_SUCCESS` and the
committed store is the previous one with the 15 pairs of `keys[]` and `values[]`
put into it in order. -/
theorem put_batch_data_atomic (L : Lib) (db : Store)
    (h1 : L.env_create = 0) (h2 : L.env_open = 0) (h3 : L.txn_begin = 0)
    (h4 : L.dbi_open = 0) :
    (∀ i, i < 15 → (∀ j, j < i → L.put j = 0) → L.put i ≠ 0 →
      (put_batch_data L (St.start db)).1 = L.put i ∧
      (put_batch_data L (St.start db)).2.db = db ∧
      (put_batch_data L (St.start db)).2.trace =
        [(Api.env_create, 0), (Api.env_open, 0), (Api.txn_begin, 0), (Api.dbi_open, 0)] ++
        List.replicate i (Api.put, 0) ++
        [(Api.put, L.put i), (Api.txn_abort, 0), (Api.dbi_close, 0), (Api.env_close, 0)]) ∧
    ((∀ j, j < 15 → L.put j = 0) → L.txn_commit = 0 →
      (put_batch_data L (St.start db)).1 = MDB_SUCCESS ∧
      (put_batch_data L (St.start db)).2.db =
        (keys.zip values).foldl (fun st e => storePut st e.1 e.2) db) := by
  have hlen : (keys.zip values).length = 15 := by decide
  constructor
  · intro i hi hlt hne
    obtain ⟨s', e1, e2, e3⟩ := put_batch_loop_fails L (keys.zip values) 0 i
      { db := db, view := db, cur := ⟨false, 0, false⟩, nput := 0, ncget := 0, ncdel := 0,
        trace := [(.env_create, 0), (.env_open, 0), (.txn_begin, 0), (.dbi_open, 0)],
        out := [] }
      (by rw [hlen]; exact hi) (by simpa using hlt) (by simpa using hne)
    simp only [zero_add] at e1 e3
    simp [put_batch_data, St.start, mdb_env_create, mdb_env_open, mdb_txn_begin,
      mdb_dbi_open, St.call, MDB_SUCCESS, h1, h2, h3, h4, e1, e2, e3, hne]
  · intro hall hc
    obtain ⟨s', e1, e2, e3⟩ := put_batch_loop_ok L (keys.zip values) 0
      { db := db, view := db, cur := ⟨false, 0, false⟩, nput := 0, ncget := 0, ncdel := 0,
        trace := [(.env_create, 0), (.env_open, 0), (.txn_begin, 0), (.dbi_open, 0)],
        out := [] }
      (by rw [hlen]; simpa using hall)
    simp [put_batch_data, St.start, mdb_env_create, mdb_env_open, mdb_txn_begin,
      mdb_dbi_open, mdb_txn_commit, mdb_dbi_close, mdb_env_close, St.call, St.print,
      MDB_SUCCESS, h1, h2, h3, h4, hc, e1, e2]

/-- Witness of C6: with every `mdb_put` failing on `MDB_MAP_FULL`, the batch write on
the store holding only `test_key` returns that code and leaves the store alone. -/
theorem put_batch_data_atomic_witness :
    (put_batch_data libPutFails (St.start [(cstr "test_key", cstr "test_value")])).1 =
        MDB_MAP_FULL ∧
    (put_batch_data libPutFails (St.start [(cstr "test_key", cstr "test_value")])).2.db =
        [(cstr "test_key", cstr "test_value")] :=
  have h := (put_batch_data_atomic libPutFails [(cstr "test_key", cstr "test_value")]
    rfl rfl rfl rfl).1 0 (by decide) (fun _ hj => absurd hj (Nat.not_lt_zero _)) (by decide)
  ⟨h.1, h.2.1⟩

/-- C8, as stated, fails at its own witness.  On the store `main` has filled no key
starts with "nonexistent", yet `query_by_prefix(DB_PATH, "nonexistent")` does not
take the not-found branch: `MDB_SET_RANGE` succeeds on `sensor/pressure_001`, the
loop breaks at once, and the function prints "found 0". -/
theorem query_nonexistent_prints_found_zero :
    StoreSorted filledStore ∧ cstr "nonexistent" ≠ [] ∧
    (filledStore.filter fun e => decide (cstr "nonexistent" <+: e.1)) = [] ∧
    (filledStore.dropWhile (entryBelow (cstr "nonexistent"))).head? =
      some (cstr "sensor/pressure_001", cstr "Pressure: 1013.25 hPa") ∧
    ( query_by_prefix (libOk true) (cstr "nonexistent") (St.start filledStore)).map
        (fun r => (r.1, r.2.out)) = some (MDB_SUCCESS, [Line.found 0]) := by
  decide

/-- C8, amended.  For every sorted store and non-empty prefix, when every library call
succeeds (whatever `MDB_NEXT` does after a cursor delete), `query_by_prefix` and
`delete_by_prefix` return, and each takes its not-found branch exactly when every
stored key is below the prefix in the key order, that is when `MDB_SET_RANGE` finds
no key at or above the prefix; in that case no stored key starts with the prefix.
When some key is at or above the prefix, `query_by_prefix` prints "found n" with the
number of keys that start with the prefix, which may be 0. -/
theorem no_match_branch_iff (stays : Bool) (pfx : Key) (db : Store)
    (_hp : pfx ≠ []) (hs : StoreSorted db) :
    (∃ s', query_by_prefix (libOk stays) pfx (St.start db) = some (MDB_SUCCESS, s') ∧
      (Line.no_match pfx ∈ s'.out ↔ ∀ e ∈ db, keyLt e.1 pfx = true) ∧
      (¬ (∀ e ∈ db, keyLt e.1 pfx = true) →
        Line.found (db.filter fun e => decide (pfx <+: e.1)).length ∈ s'.out)) ∧
    (∃ s', delete_by_prefix (libOk stays) pfx (St.start db) = some (MDB_SUCCESS, s') ∧
      (Line.no_match pfx ∈ s'.out ↔ ∀ e ∈ db, keyLt e.1 pfx = true)) ∧
    ((∀ e ∈ db, keyLt e.1 pfx = true) → ∀ e ∈ db, ¬ pfx <+: e.1) := by
  have hnil : db.dropWhile (entryBelow pfx) = [] ↔ ∀ e ∈ db, keyLt e.1 pfx = true := by
    rw [List.dropWhile_eq_nil_iff]
    rfl
  refine ⟨?_, ?_, ?_⟩
  · obtain ⟨s', h1, _, h3⟩ := observe_some ( query_by_prefix_run stays pfx db)
    have hf := filter_pfx_sorted db pfx hs
    rw [entryHasPfx_eq] at hf h3
    rw [← hf] at h3
    refine ⟨s', h1, ?_, ?_⟩
    · rw [← hnil, h3]
      by_cases hB : db.dropWhile (entryBelow pfx) = []
      · simp [hB]
      · simp [hB, recordLines]
    · intro hne
      have hB : ¬ db.dropWhile (entryBelow pfx) = [] := fun h => hne (hnil.mp h)
      simp [h3, hB]
  · obtain ⟨s', h1, h2⟩ := delete_by_prefix_branch stays pfx db
    exact ⟨s', h1, h2.trans hnil⟩
  · intro hall e he hpre
    have := not_hasPfx_of_lt pfx e.1 (hall e he)
    rw [(keyHasPfx_iff pfx e.1).mpr hpre] at this
    cases this

/-- Witness of C8 amended: on the store `main` has filled, the query for "zzz", above
every stored key, takes the not-found branch. -/
theorem no_match_branch_iff_witness :
    cstr "zzz" ≠ [] ∧ StoreSorted filledStore ∧
    (∀ e ∈ filledStore, keyLt e.1 (cstr "zzz") = true) ∧
    ∃ s', query_by_prefix (libOk true) (cstr "zzz") (St.start filledStore) =
        some (MDB_SUCCESS, s') ∧
      (Line.no_match (cstr "zzz") ∈ s'.out ↔ ∀ e ∈ filledStore, keyLt e.1 (cstr "zzz") = true) :=
  ⟨by decide, by decide, by decide,
    (no_match_branch_iff true (cstr "zzz") filledStore (by decide) (by decide)).1.imp
      fun _ h => ⟨h.1, h.2.1⟩⟩

/-- When no library call fails, every database function ends its transaction exactly
once (checked on the store `main` has filled). -/
theorem txnEndedOnce_when_all_succeed :
    txnEndedOnce (create_and_open_database (libOk true) (St.start filledStore)).2.trace = true ∧
    txnEndedOnce (put_single_data (libOk true) (cstr "test_key") (cstr "test_value")
      (St.start filledStore)).2.trace = true ∧
    txnEndedOnce (put_batch_data (libOk true) (St.start filledStore)).2.trace = true ∧
    txnEndedOnce (get_data (libOk true) (cstr "test_key") (St.start filledStore)).2.trace = true ∧
    (iterate_all_data (libOk true) (St.start filledStore)).map
      (fun r => txnEndedOnce r.2.trace) = some true ∧
    ( query_by_prefix (libOk true) (cstr "battery") (St.start filledStore)).map
      (fun r => txnEndedOnce r.2.trace) = some true ∧
    txnEndedOnce (delete_data (libOk true) (cstr "test_key") (St.start filledStore)).2.trace =
      true ∧
    ( delete_by_prefix (libOk true) (cstr "log") (St.start filledStore)).map
      (fun r => txnEndedOnce r.2.trace) = some true ∧
    txnEndedOnce (get_database_stats (libOk true) (St.start filledStore)).2.trace = true := by
  decide

/-- C9 fails in the code.  When `mdb_put` fails in `put_single_data`, `CHECK_ERROR`
returns the error with the transaction begun and neither committed nor aborted: the
trace ends on the failed put.  The same happens in `delete_by_prefix` when
`mdb_cursor_open` fails and in `get_database_stats` when `mdb_stat` fails.  In the
same environment `put_batch_data` aborts its transaction on the failed put, and
`put_single_data` ends its transaction when no call fails. -/
theorem put_single_data_leaves_txn_open :
    (put_single_data libPutFails (cstr "test_key") (cstr "test_value") (St.start [])).1 =
      MDB_MAP_FULL ∧
    (put_single_data libPutFails (cstr "test_key") (cstr "test_value") (St.start [])).2.trace =
      [(Api.env_create, 0), (Api.env_open, 0), (Api.txn_begin, 0), (Api.dbi_open, 0),
       (Api.put, MDB_MAP_FULL)] ∧
    txnEndedOnce
      (put_single_data libPutFails (cstr "test_key") (cstr "test_value")
        (St.start [])).2.trace = false ∧
    ( delete_by_prefix libCursorOpenFails (cstr "log") (St.start filledStore)).map
        (fun r => (r.1, r.2.trace, txnEndedOnce r.2.trace)) =
      some (EINVAL,
        [(Api.env_create, 0), (Api.env_open, 0), (Api.txn_begin, 0), (Api.dbi_open, 0),
         (Api.cursor_open, EINVAL)], false) ∧
    txnEndedOnce (get_database_stats libStatFails (St.start filledStore)).2.trace = false ∧
    txnEndedOnce (put_batch_data libPutFails (St.start [])).2.trace = true ∧
    txnEndedOnce
      (put_single_data (libOk true) (cstr "test_key") (cstr "test_value")
        (St.start [])).2.trace = true := by
  decide

/-- Remark on the cursor contract, for the whole run.  Under a cursor that LMDB does
not have, whose `MDB_NEXT` would advance from the position a cursor delete left it
on, `main` would still return 0, but `delete_by_prefix("log")` would skip
`log/2024-01-02` and the final statistics would report 13 entries. -/
theorem main_keeps_a_log_entry_when_next_advances :
    (c_main (libOk false) (St.start [])).map
        (fun r => (r.1, r.2.db.length, storeGet r.2.db (cstr "log/2024-01-02"),
          statsReports r.2.out)) =
      some (0, 13, some (cstr "Normal operation"), [16, 13]) := by
  decide

/-- C10. The run of `main`.  Started on the empty store, with every library call
succeeding and the cursor of LMDB, `main` returns 0 and leaves a committed store
holding exactly the 12 pairs of `keys[]`/`values[]` whose key starts with
"battery/", "sensor/" or "config/", each with its value; the two statistics
reports show 16 and then 12 entries. -/
theorem main_leaves_twelve_entries :
    (c_main (libOk true) (St.start [])).map
        (fun r => (r.1, r.2.db, r.2.db.length, statsReports r.2.out)) =
      some (0,
        ((keys.zip values).filter fun e =>
          decide (cstr "battery/" <+: e.1 ∨ cstr "sensor/" <+: e.1 ∨
            cstr "config/" <+: e.1)).foldl (fun st e => storePut st e.1 e.2) [],
        12, [16, 12]) := by
  decide

